import Mathlib

/-!
Verification model of the tool-calling streaming orchestrator of
`llm-mcp-proxy` (sources: `src/llm_mcp_proxy/providers/openai_with_tool.ts`,
`src/llm_mcp_proxy/providers/index.ts`, `src/llm_mcp_proxy/utils/mcp.ts`).

The TypeScript code is embedded shallowly: pure helpers become Lean
functions, the streaming loop becomes explicit state passing over an
`SState` record, and module level mutable registries become explicit
state records.  External collaborators (the OpenAI backend, MCP tool
server processes) are modelled as environment records of functions.

`JSON.parse` / `JSON.stringify` are modelled by `jsonParse` / `Json.render`
over a JSON value type.  The parser covers the JSON subset the code
actually exchanges: objects, arrays, strings (with the common escapes),
integer numbers and the three literals, with the standard four whitespace
characters.  All concrete inputs used in theorems stay inside this subset,
where the model agrees with a JavaScript engine.
-/

set_option maxRecDepth 4096

namespace LMP

/-- JSON values, as produced by `JSON.parse` in the source. -/
inductive Json where
  | null
  | bool (b : Bool)
  | num (n : Int)
  | str (s : String)
  | arr (elems : List Json)
  | obj (members : List (String × Json))
deriving Repr, Inhabited

/-- The whitespace characters of the JSON grammar. -/
def jsonWs (c : Char) : Bool :=
  c = ' ' ∨ c = '\t' ∨ c = '\n' ∨ c = '\r'

def skipWs (l : List Char) : List Char := l.dropWhile jsonWs

/-- The decoded character of a JSON string escape `\\c`. -/
def escCharOf (c : Char) : Option Char :=
  if c = '"' then some '"'
  else if c = '\\' then some '\\'
  else if c = '/' then some '/'
  else if c = 'n' then some '\n'
  else if c = 't' then some '\t'
  else if c = 'r' then some '\r'
  else none

/-- Body of a JSON string after the opening quote: returns the decoded
characters and the input after the closing quote. -/
def parseStrChars : List Char → Option (List Char × List Char)
  | [] => none
  | '"' :: rest => some ([], rest)
  | '\\' :: c :: rest =>
    match escCharOf c with
    | none => none
    | some e =>
      match parseStrChars rest with
      | none => none
      | some p => some (e :: p.1, p.2)
  | c :: rest =>
    match parseStrChars rest with
    | none => none
    | some p => some (c :: p.1, p.2)

def natOfDigits (l : List Char) : Nat :=
  l.foldl (fun a c => a * 10 + (c.toNat - 48)) 0

/-- A maximal non-empty digit run. -/
def parseDigits (l : List Char) : Option (Nat × List Char) :=
  let ds := l.takeWhile Char.isDigit
  if ds.isEmpty then none else some (natOfDigits ds, l.dropWhile Char.isDigit)

/-- Parser mode: a value, the inside of an object (just after `{` or
after a `,`), or the inside of an array. -/
inductive PMode where
  | val
  | objStart
  | members (acc : List (String × Json))
  | arrStart
  | elems (acc : List Json)

/-- Recursive-descent JSON parser, fuel-indexed (structural recursion on
the fuel so that concrete runs reduce in the kernel). -/
def parseStep : Nat → PMode → List Char → Option (Json × List Char)
  | 0, _, _ => none
  | fuel + 1, PMode.val, l =>
    match skipWs l with
    | [] => none
    | c :: rest =>
      if c = '{' then parseStep fuel PMode.objStart rest
      else if c = '[' then parseStep fuel PMode.arrStart rest
      else if c = '"' then
        match parseStrChars rest with
        | none => none
        | some p => some (.str (String.mk p.1), p.2)
      else if c = '-' then
        match parseDigits rest with
        | none => none
        | some p => some (.num (-(p.1 : Int)), p.2)
      else if c.isDigit then
        match parseDigits (c :: rest) with
        | none => none
        | some p => some (.num (p.1 : Int), p.2)
      else
        let cl := c :: rest
        if cl.take 4 = "true".toList then some (.bool true, cl.drop 4)
        else if cl.take 5 = "false".toList then some (.bool false, cl.drop 5)
        else if cl.take 4 = "null".toList then some (.null, cl.drop 4)
        else none
  | fuel + 1, PMode.objStart, l =>
    match skipWs l with
    | '}' :: r => some (.obj [], r)
    | _ => parseStep fuel (PMode.members []) l
  | fuel + 1, PMode.members acc, l =>
    match skipWs l with
    | '"' :: rest =>
      match parseStrChars rest with
      | none => none
      | some kp =>
        match skipWs kp.2 with
        | ':' :: r2 =>
          match parseStep fuel PMode.val r2 with
          | none => none
          | some vp =>
            match skipWs vp.2 with
            | ',' :: r4 => parseStep fuel (PMode.members (acc ++ [(String.mk kp.1, vp.1)])) r4
            | '}' :: r4 => some (.obj (acc ++ [(String.mk kp.1, vp.1)]), r4)
            | _ => none
        | _ => none
    | _ => none
  | fuel + 1, PMode.arrStart, l =>
    match skipWs l with
    | ']' :: r => some (.arr [], r)
    | _ => parseStep fuel (PMode.elems []) l
  | fuel + 1, PMode.elems acc, l =>
    match parseStep fuel PMode.val l with
    | none => none
    | some vp =>
      match skipWs vp.2 with
      | ',' :: r2 => parseStep fuel (PMode.elems (acc ++ [vp.1])) r2
      | ']' :: r2 => some (.arr (acc ++ [vp.1]), r2)
      | _ => none

/-- Model of `JSON.parse`: parse one value, allow surrounding whitespace,
require the whole input to be consumed; `none` models a thrown
`SyntaxError`. -/
def jsonParse (s : String) : Option Json :=
  match parseStep (2 * s.length + 8) PMode.val s.toList with
  | some p => if (skipWs p.2).isEmpty then some p.1 else none
  | none => none

def escapeChar (c : Char) : String :=
  if c = '"' then "\\\"" else if c = '\\' then "\\\\" else String.singleton c

def escape (s : String) : String := String.join (s.toList.map escapeChar)

mutual

/-- Model of `JSON.stringify` on parsed values. -/
def Json.render : Json → String
  | .null => "null"
  | .bool true => "true"
  | .bool false => "false"
  | .num n => toString n
  | .str s => "\"" ++ escape s ++ "\""
  | .arr xs => "[" ++ Json.renderElems xs ++ "]"
  | .obj ms => "\x7b" ++ Json.renderMembers ms ++ "\x7d"

def Json.renderElems : List Json → String
  | [] => ""
  | [x] => Json.render x
  | x :: xs => Json.render x ++ "," ++ Json.renderElems xs

def Json.renderMembers : List (String × Json) → String
  | [] => ""
  | [kv] => "\"" ++ escape kv.1 ++ "\":" ++ Json.render kv.2
  | kv :: ms => "\"" ++ escape kv.1 ++ "\":" ++ Json.render kv.2 ++ "," ++ Json.renderMembers ms

end

/-- JavaScript member access `v.k` on a parsed JSON value (`none` models
`undefined`).  With duplicate keys, `JSON.parse` keeps the last one. -/
def Json.getField : Json → String → Option Json
  | .obj ms, k => (ms.reverse.find? (fun kv => kv.1 = k)).map (·.2)
  | _, _ => none

/-- JavaScript truthiness of a parsed JSON value. -/
def Json.truthy : Json → Bool
  | .null => false
  | .bool b => b
  | .num n => n ≠ 0
  | .str s => s ≠ ""
  | .arr _ => true
  | .obj _ => true

/-- JavaScript truthiness of `v.k` (`!!v.k`). -/
def fieldTruthy (v : Json) (k : String) : Bool :=
  match v.getField k with
  | some x => x.truthy
  | none => false

/-- `typeof parsed === 'object' && parsed !== null` (arrays included). -/
def Json.isObjLike : Json → Bool
  | .obj _ => true
  | .arr _ => true
  | _ => false

/-! ## String helpers used by `cleanAndParseJSON` / `extractPathFromMessage`
(`openai_with_tool.ts`, lines 70-154) -/

/-- `str.replace(/\\"/g, '"')`. -/
def replaceEscQuotes : List Char → List Char
  | '\\' :: '"' :: rest => '"' :: replaceEscQuotes rest
  | c :: rest => c :: replaceEscQuotes rest
  | [] => []

/-- `str.replace(/^"|"$/g, '')`: drop one leading and one trailing quote. -/
def stripOuterQuotes (l : List Char) : List Char :=
  let l := match l with
    | '"' :: rest => rest
    | other => other
  match l.getLast? with
  | some '"' => l.dropLast
  | _ => l

/-- `str.replace(/\s+/g, '')`. -/
def removeWs (l : List Char) : List Char := l.filter (fun c => ¬ jsonWs c)

/-- `s.trim()`, implemented structurally so that concrete runs reduce in
the kernel (the whitespace class is the one relevant to these inputs). -/
def trimString (s : String) : String :=
  let l := s.toList.dropWhile jsonWs
  String.mk (l.reverse.dropWhile jsonWs).reverse

/-- `s.startsWith(p)`, structurally. -/
def startsWithStr (s p : String) : Bool := p.toList.isPrefixOf s.toList

/-- `s.endsWith(p)`, structurally. -/
def endsWithStr (s p : String) : Bool := p.toList.reverse.isPrefixOf s.toList.reverse

/-- `parts.join(sep)`, structurally. -/
def joinSep (sep : String) : List String → String
  | [] => ""
  | [x] => x
  | x :: xs => x ++ sep ++ joinSep sep xs

def isSlashChar (c : Char) : Bool := c = '/' ∨ c = '\\'

/-- `str.split(/[/\\]+/)` followed by `.filter(Boolean)` in the source;
splitting on every slash and dropping empty pieces yields the same list as
splitting on runs and dropping empty pieces. -/
def splitSlashParts (s : String) : List String :=
  ((s.toList.splitOnP isSlashChar).map (fun l => String.mk l)).filter (fun p => p ≠ "")

/-- Whether `/"path":"([^"]+)"/` matches starting at this position. -/
def pathFieldAt (l : List Char) : Bool :=
  match l with
  | '"' :: 'p' :: 'a' :: 't' :: 'h' :: '"' :: ':' :: '"' :: rest =>
    ¬ (rest.takeWhile (fun c => c ≠ '"')).isEmpty ∧
      (rest.dropWhile (fun c => c ≠ '"')).head? = some '"'
  | _ => false

/-- Whether `cleaned.match(/"path":"([^"]+)"/)` finds a match. -/
def hasPathField : List Char → Bool
  | [] => false
  | c :: rest => pathFieldAt (c :: rest) ∨ hasPathField rest

/-- `openai_with_tool.ts` 70-138, `cleanAndParseJSON`: direct parse first
(returned only for objects/arrays), otherwise the cleanup-and-rebuild
branch; `Except.error` models a thrown `Error` with that message. -/
def cleanAndParseJSON (str : String) : Except String Json :=
  if trimString str = "" then .error "Empty JSON string"
  else
    let cleanup : Except String Json :=
      let cleaned := String.mk (removeWs (stripOuterQuotes (replaceEscQuotes str.toList)))
      let cleaned := if startsWithStr cleaned "\x7b" then cleaned else "\x7b" ++ cleaned
      let cleaned := if endsWithStr cleaned "\x7d" then cleaned else cleaned ++ "\x7d"
      let rebuilt : Except String String :=
        if hasPathField cleaned.toList then .ok cleaned
        else
          let parts := splitSlashParts str
          if parts ≠ [] then
            .ok ("\x7b\"path\":\"" ++ ("/" ++ joinSep "/" parts) ++ "\"\x7d")
          else .error "No path found in arguments"
      match rebuilt with
      | .error e => .error ("Failed to parse JSON: " ++ e)
      | .ok cleaned =>
        match jsonParse cleaned with
        | none => .error "Failed to parse JSON: SyntaxError"
        | some parsed =>
          if fieldTruthy parsed "path" then .ok parsed
          else .error "Failed to parse JSON: Missing path parameter in parsed JSON"
    match jsonParse str with
    | some v => if v.isObjLike then .ok v else cleanup
    | none => cleanup

/-- One `我的(.*?)中` match attempt list: at the first `我的` occurrence,
capture lazily up to the first following `中` on the same line (`.` does
not cross line breaks); on failure the scan restarts one position later. -/
def chineseCapture : List Char → Option (List Char)
  | '我' :: '的' :: rest =>
    let seg := rest.takeWhile (fun c => c ≠ '\n' ∧ c ≠ '\r')
    if seg.any (fun c => c = '中') then some (seg.takeWhile (fun c => c ≠ '中'))
    else chineseCapture rest
  | _ :: rest => chineseCapture rest
  | [] => none

/-- Greedy repetition of `([/\\][^/\\]+)` starting exactly here. -/
def matchSlashGroups : Nat → List Char → Option (List Char × List Char)
  | 0, _ => none
  | _ + 1, [] => none
  | _ + 1, [_] => none
  | fuel + 1, c :: d :: rest =>
    if isSlashChar c ∧ ¬ isSlashChar d then
      let run := (d :: rest).takeWhile (fun x => ¬ isSlashChar x)
      let rest2 := (d :: rest).dropWhile (fun x => ¬ isSlashChar x)
      match matchSlashGroups fuel rest2 with
      | some (m, r) => some ((c :: run) ++ m, r)
      | none => some (c :: run, rest2)
    else none

/-- Leftmost match of `/([/\\][^/\\]+)+/`. -/
def generalPathMatch : List Char → Option (List Char)
  | [] => none
  | c :: rest =>
    match matchSlashGroups (rest.length + 2) (c :: rest) with
    | some (m, _) => some m
    | none => generalPathMatch rest

/-- `openai_with_tool.ts` 140-154, `extractPathFromMessage`: the Chinese
`我的(.*?)中` pattern first (used only when the capture is truthy), then
the general slash-path pattern with backslashes normalised. -/
def extractPathFromMessage (message : String) : Option String :=
  let general : Option String :=
    match generalPathMatch message.toList with
    | some m => some (String.mk (m.map (fun c => if c = '\\' then '/' else c)))
    | none => none
  match chineseCapture message.toList with
  | some cap => if String.mk cap ≠ "" then some (trimString (String.mk cap)) else general
  | none => general

/-- The inline complete-JSON check of `chatStream` (lines 535-546): the
accumulated buffer, trimmed, must be non-empty, brace-delimited and
parseable. -/
def isCompleteJSON (s : String) : Bool :=
  let t := trimString s
  t ≠ "" ∧ startsWithStr t "\x7b" ∧ endsWithStr t "\x7d" ∧ (jsonParse t).isSome

/-! ## Data model of the streaming orchestrator (`chatStream`) -/

inductive Role where
  | system
  | user
  | assistant
  | tool
deriving Repr, DecidableEq

/-- An entry of an assistant message's `tool_calls` array. -/
structure ToolCallMeta where
  id : String
  name : String
  arguments : String
deriving Repr, DecidableEq

/-- One conversation message (`ChatCompletionMessageParam`). -/
structure Message where
  role : Role
  content : String
  name : Option String := none
  tool_call_id : Option String := none
  tool_calls : List ToolCallMeta := []
deriving Repr, DecidableEq

/-- One entry of `delta.tool_calls` in a streamed chunk. -/
structure ToolCallFragment where
  id : Option String
  index : Nat := 0
  fname : Option String := none
  fargs : Option String := none
deriving Repr, DecidableEq

/-- A streamed `ChatCompletionChunk`, reduced to the fields the
orchestrator reads (the rest is passed through opaquely). -/
structure Chunk where
  tool_calls : List ToolCallFragment := []
  finish_reason : Option String := none
deriving Repr, DecidableEq

/-- `ToolCallState` (`openai_with_tool.ts` 42-48). -/
structure ToolCallState where
  id : String
  name : String
  arguments : String
  index : Nat
  argumentsComplete : Bool
deriving Repr, DecidableEq

/-- An entry of the `toolResults` array. -/
structure ToolResultRec where
  name : String
  result : Json
  tool_call_id : String
deriving Repr

/-- One outward SSE frame (`data: <json>\n\n`).  `needConfirm` is
modelled from the spec: the spec's outward protocol lists a
`need_confirm` frame type, but no code in the repository produces it. -/
inductive Frame where
  | raw (c : Chunk)
  | toolResult (name : String) (result : Json)
  | toolError (message : String)
  | error (message : String)
  | needConfirm (calls : List ToolCallMeta)
  | loopInfo (loop : Nat)
  | done
deriving Repr

/-- External collaborators of one `chatStream` call: the converted MCP
tool manifest (or the error thrown while building it), the streamed
backend response (or the rejection of `openai.chat.completions.create`),
and tool invocation as performed by the per-server `invokeTool` wrapper
(which stringifies and re-parses the arguments, a round trip). -/
structure StreamEnv where
  toolList : Except String (List String)
  backendChunks : Except String (List Chunk)
  invoke : String → String → Json → Except String Json

/-- The request parameters `chatStream` destructures. -/
structure StreamParams where
  isYolo : Bool := false
  mcpServerNames : List String := []
  messages : List Message := []

/-- The mutable state of one `chatStream` call: frames written so far,
the `streamEnded` flag, `toolResults`, the `messages` array, plus an
observation trace `invoked` of the invocations that reached a client's
`invokeTool` (name and parsed arguments). -/
structure SState where
  frames : List Frame := []
  streamEnded : Bool := false
  toolResults : List ToolResultRec := []
  messages : List Message := []
  invoked : List (String × Json) := []
deriving Repr

/-- An unguarded `stream.write` of one frame. -/
def writeF (f : Frame) (s : SState) : SState :=
  { s with frames := s.frames ++ [f] }

/-- `send` (lines 334-342): write only while the stream is open. -/
def send (f : Frame) (s : SState) : SState :=
  if s.streamEnded then s else writeF f s

def mkAssistantResultsMsg (trs : List ToolResultRec) : Message :=
  { role := .assistant, content := "",
    tool_calls := trs.map (fun r => ⟨r.tool_call_id, r.name, r.result.render⟩) }

def mkToolMsg (r : ToolResultRec) : Message :=
  { role := .tool, content := r.result.render, name := some r.name,
    tool_call_id := some r.tool_call_id }

/-- `endStream` (lines 344-381): if the stream is still open, append the
accumulated tool results to the message history, write the terminal
`[DONE]` frame once and mark the stream ended. -/
def endStream (s : SState) : SState :=
  if s.streamEnded then s
  else
    let s :=
      if ¬ s.toolResults.isEmpty then
        { s with messages :=
            s.messages ++ mkAssistantResultsMsg s.toolResults :: s.toolResults.map mkToolMsg }
      else s
    { s with frames := s.frames ++ [Frame.done], streamEnded := true }

/-- Fragment ingestion (lines 505-557): get or create the state keyed by
`tc.id` (a JS `Map` keeps insertion order), update the name, append the
arguments fragment and recompute `argumentsComplete`. -/
def ingestFragment (states : List ToolCallState) (tc : ToolCallFragment) : List ToolCallState :=
  match tc.id with
  | none => states
  | some id =>
    let states :=
      if states.any (fun st => st.id = id) then states
      else states ++ [{ id := id, name := tc.fname.getD "", arguments := "",
                        index := tc.index, argumentsComplete := false }]
    states.map (fun st =>
      if st.id = id then
        let st := match tc.fname with
          | some n => { st with name := n }
          | none => st
        match tc.fargs with
        | some a =>
          let newArgs := st.arguments ++ a
          { st with arguments := newArgs, argumentsComplete := isCompleteJSON newArgs }
        | none => st
      else st)

/-- The user-message fallback inside `finalize` (lines 576-585):
`messages.find(m => m.role === 'user')` takes the FIRST user message;
a falsy content or a falsy extracted path leaves `parsedArgs` unset. -/
def pathFallback (msgs : List Message) : Option Json :=
  match msgs.find? (fun m => m.role = Role.user) with
  | some m =>
    if m.content ≠ "" then
      match extractPathFromMessage m.content with
      | some p => if p ≠ "" then some (Json.obj [("path", Json.str p)]) else none
      | none => none
    else none
  | none => none

/-- Finalization of one tracked tool call (lines 564-630): resolve the
arguments (fallback when the buffer is incomplete or blank, otherwise
`cleanAndParseJSON`), require a truthy `path`, then invoke the tool on
`mcpClients[0]`.  With no clients, reading `mcpClients[0].invokeTool`
throws a `TypeError` that the inner catch turns into a `tool_error`. -/
def processState (env : StreamEnv) (clients : List String) (st : ToolCallState)
    (s : SState) : SState :=
  match (if ¬ st.argumentsComplete ∨ trimString st.arguments = "" then .ok (pathFallback s.messages)
         else (cleanAndParseJSON st.arguments).map some : Except String (Option Json)) with
  | .error e => send (Frame.toolError e) s
  | .ok none => send (Frame.toolError "No valid path found in arguments or user message") s
  | .ok (some v) =>
    if ¬ fieldTruthy v "path" then
      send (Frame.toolError "No valid path found in arguments or user message") s
    else
      match clients with
      | [] =>
        send (Frame.toolError "Cannot read properties of undefined (reading 'invokeTool')") s
      | c :: _ =>
        let s := { s with invoked := s.invoked ++ [(st.name, v)] }
        match env.invoke c st.name v with
        | .ok result =>
          let s := send (Frame.toolResult st.name result) s
          if s.streamEnded then s
          else { s with toolResults := s.toolResults ++ [⟨st.name, result, st.id⟩] }
        | .error e => send (Frame.toolError e) s

/-- Outcome of one `chatStream` call: either the promise resolves, or an
uncaught exception rejects it; both carry the final observable state. -/
inductive StreamOutcome where
  | returned (s : SState)
  | threw (msg : String) (s : SState)
deriving Repr

def StreamOutcome.state : StreamOutcome → SState
  | .returned s => s
  | .threw _ s => s

/-- The `for await` chunk loop (lines 498-637): pass each chunk through,
ingest its tool-call fragments, and on `finish_reason === 'tool_calls'`
run `finalize` over all tracked states, end the stream and return
(`true`); otherwise fall out with the accumulated states (`false`). -/
def runChunks (env : StreamEnv) (clients : List String) :
    List Chunk → List ToolCallState → SState → List ToolCallState × SState × Bool
  | [], states, s => (states, s, false)
  | ch :: rest, states, s =>
    let s := writeF (Frame.raw ch) s
    let states := ch.tool_calls.foldl ingestFragment states
    if ch.finish_reason = some "tool_calls" then
      (states, endStream (states.foldl (fun s st => processState env clients st s) s), true)
    else runChunks env clients rest states s

/-- `if (isYolo) mcpServerNames.map(...) else []` (line 392): client
wrappers are created per requested server name. -/
def mcpClientsOf (p : StreamParams) : List String :=
  if p.isYolo then p.mcpServerNames else []

/-- One iteration of the `while` loop of `chatStream` (lines 432-753).
Every branch of the body exits the function: the tool-manifest failure
path (470-475), the `finish_reason === 'tool_calls'` path (560-636), and
the no-tool-calls paths (639-649); `finishedWithToolCalls` is never true
after the chunk loop because that case returns at line 635, so the code
at lines 645-753 is unreachable. -/
def chatStreamBody (env : StreamEnv) (p : StreamParams) : StreamOutcome :=
  let clients := mcpClientsOf p
  let s0 : SState := { messages := p.messages }
  match (if p.isYolo ∧ clients ≠ [] then env.toolList else .ok []) with
  | .error e => .returned (endStream (send (Frame.error ("Error preparing tools: " ++ e)) s0))
  | .ok _tools =>
    match env.backendChunks with
    | .error e => .threw e s0
    | .ok chunks =>
      if (runChunks env clients chunks [] s0).2.2 then
        .returned (runChunks env clients chunks [] s0).2.1
      else .returned (writeF Frame.done (runChunks env clients chunks [] s0).2.1)

/-- `avoid dead loop` (line 22). -/
def MAX_TOOL_LOOPS : Nat := 5

/-- `chatStream` (lines 320-754): since every branch of the loop body
returns, at most one iteration of `while (loop++ < MAX_TOOL_LOOPS)`
executes; with a zero bound the function would fall through and resolve
without writing anything. -/
def chatStream (env : StreamEnv) (p : StreamParams) : StreamOutcome :=
  if MAX_TOOL_LOOPS = 0 then .returned { messages := p.messages }
  else chatStreamBody env p

/-! ## Data model of the non-streaming tool loop (`chat`, lines 156-292) -/

/-- `call.function` of a non-streaming tool call. -/
structure NSFun where
  name : String
  arguments : String
deriving Repr, DecidableEq

/-- One entry of `choice.message.tool_calls` (`if (!call.function) continue`
is a live check, so the function member is optional). -/
structure NSToolCall where
  id : String
  fn : Option NSFun
deriving Repr, DecidableEq

/-- `response.choices[0]`, reduced to the fields `chat` reads. -/
structure NSChoice where
  finish_reason : Option String := none
  content : String := ""
  tool_calls : Option (List NSToolCall) := none
deriving Repr, DecidableEq

/-- A non-streaming completion response (`choices[0]` may be absent). -/
structure NSResponse where
  choice : Option NSChoice
deriving Repr, DecidableEq

/-- One generation request issued to the backend: the message history and
the names of the tools passed (empty meaning no `tools` parameter). -/
structure GenCall where
  msgs : List Message
  tools : List String
deriving Repr, DecidableEq

/-- External collaborators of one `chat` call: the backend (indexed by
the number of generation calls already made), the per-iteration MCP tool
manifest, the list of successfully initialised MCP clients (lines
161-183) and tool invocation on client `i`. -/
structure ChatEnv where
  gen : Nat → GenCall → NSResponse
  toolsFor : Nat → Except String (List String)
  clients : List String
  invoke : Nat → String → String → Except String Json

/-- Result of `chat`: the trace of generation requests, the returned
response or thrown error, and the trace of attempted tool invocations
(client index, tool name, raw argument string). -/
structure ChatOut where
  trace : List GenCall
  result : Except String NSResponse
  invocations : List (Nat × String × String)
deriving Repr

/-- The tool-call processing loop of `chat` (lines 250-266): each call's
tool is looked up among the request's tools by name (`findIndex`), a
missing client or a failed invocation THROWS, aborting the remaining
calls of the turn. -/
def processNSCalls (env : ChatEnv) (tools : List String) :
    List NSToolCall → List (Nat × String × String) →
    Except String (List ToolResultRec) × List (Nat × String × String)
  | [], inv => (.ok [], inv)
  | c :: rest, inv =>
    match c.fn with
    | none => processNSCalls env tools rest inv
    | some f =>
      match tools.findIdx? (fun t => t = f.name) with
      | none => (.error ("No MCP client available for tool \"" ++ f.name ++ "\""), inv)
      | some i =>
        if env.clients.length ≤ i then
          (.error ("No MCP client available for tool \"" ++ f.name ++ "\""), inv)
        else
          let inv := inv ++ [(i, f.name, f.arguments)]
          match env.invoke i f.name f.arguments with
          | .error e => (.error ("Tool execution failed: " ++ e), inv)
          | .ok r =>
            match processNSCalls env tools rest inv with
            | (.ok results, inv2) => (.ok (⟨f.name, r, c.id⟩ :: results), inv2)
            | (.error e, inv2) => (.error e, inv2)

/-- The fallback call after the loop (lines 286-291): one generation
without tools, whose response is returned. -/
def chatFinal (env : ChatEnv) (msgs : List Message) (tr : List GenCall)
    (inv : List (Nat × String × String)) : ChatOut :=
  let req : GenCall := ⟨msgs, []⟩
  ⟨tr ++ [req], .ok (env.gen tr.length req), inv⟩

/-- The `while (loop++ < MAX_TOOL_LOOPS)` body of `chat` (lines 188-283),
with the remaining iteration budget as fuel. -/
def chatLoop (env : ChatEnv) (isYolo : Bool) :
    Nat → List Message → List GenCall → List (Nat × String × String) → ChatOut
  | 0, msgs, tr, inv => chatFinal env msgs tr inv
  | fuel + 1, msgs, tr, inv =>
    match (if isYolo ∧ ¬ env.clients.isEmpty then env.toolsFor tr.length else .ok []) with
    | .error e => ⟨tr, .error ("Error preparing tools: " ++ e), inv⟩
    | .ok tools =>
      let req : GenCall := ⟨msgs, tools⟩
      let resp := env.gen tr.length req
      let tr := tr ++ [req]
      match resp.choice with
      | none => chatFinal env msgs tr inv
      | some ch =>
        if ch.finish_reason ≠ some "tool_calls" ∨ ch.tool_calls = none then ⟨tr, .ok resp, inv⟩
        else
          let calls := ch.tool_calls.getD []
          match processNSCalls env tools calls inv with
          | (.error e, inv) => ⟨tr, .error e, inv⟩
          | (.ok results, inv) =>
            let msgs := msgs ++
              ({ role := .assistant, content := ch.content,
                 tool_calls := calls.map (fun c =>
                   ⟨c.id, ((c.fn.map NSFun.name).getD ""), ((c.fn.map NSFun.arguments).getD "")⟩) } : Message) ::
              results.map mkToolMsg
            chatLoop env isYolo fuel msgs tr inv

/-- `chat` (lines 156-292). -/
def chat (env : ChatEnv) (isYolo : Bool) (initMsgs : List Message) : ChatOut :=
  chatLoop env isYolo MAX_TOOL_LOOPS initMsgs [] []

/-! ## Data model of the MCP client registry
(`providers/index.ts` 41-153 and `utils/mcp.ts`) -/

structure MCPServerConfig where
  command : String
  args : List String := []
deriving Repr, DecidableEq

structure MCPConfig where
  mcpServers : List (String × MCPServerConfig)
deriving Repr, DecidableEq

/-- External collaborators of the registry: the `mcp_servers.json` read
(which may throw) and whether connecting the freshly created client with
handle `h` succeeds. -/
structure RegEnv where
  fileConfig : Except String MCPConfig
  connectOK : Nat → Bool

/-- The module-level mutable state: `mcpConfig` (`utils/mcp.ts`),
`isConfigInitialized`, the `mcpClients` cache, and a counter minting a
fresh handle for every `new Client(...)` (reference identity). -/
structure RegState where
  mcpConfig : Option MCPConfig := none
  isConfigInitialized : Bool := false
  mcpClients : List (String × Nat) := []
  nextHandle : Nat := 0
deriving Repr, DecidableEq

/-- JS `Map.get` / object member read. -/
def lookupEntry : List (String × α) → String → Option α
  | [], _ => none
  | kv :: m, k => if kv.1 = k then some kv.2 else lookupEntry m k

/-- JS `Map.set` / object index assignment: replace the entry in place,
keeping insertion order, or append a new one. -/
def setEntry : List (String × α) → String → α → List (String × α)
  | [], k, v => [(k, v)]
  | kv :: m, k, v => if kv.1 = k then (k, v) :: m else kv :: setEntry m k v

/-- JS `Map.delete`. -/
def delEntry (m : List (String × α)) (k : String) : List (String × α) :=
  m.filter (fun kv => kv.1 ≠ k)

/-- `loadMCPClientByConfig` (`utils/mcp.ts` 31-47): return the cached
module config, else read the file (caching it) or rethrow the read error. -/
def loadMCPClientByConfig (env : RegEnv) (s : RegState) :
    Except String MCPConfig × RegState :=
  match s.mcpConfig with
  | some c => (.ok c, s)
  | none =>
    match env.fileConfig with
    | .ok c => (.ok c, { s with mcpConfig := some c })
    | .error e => (.error e, s)

/-- `initializeMCP` (`providers/index.ts` 33-39). -/
def initializeMCP (config : MCPConfig) (s : RegState) : RegState :=
  if ¬ s.isConfigInitialized then
    { s with mcpConfig := some config, isConfigInitialized := true }
  else s

/-- `updateServerConfig` (`utils/mcp.ts` 22-29). -/
def updateServerConfig (server : String) (cfg : MCPServerConfig) (s : RegState) : RegState :=
  let base := (s.mcpConfig.getD ⟨[]⟩).mcpServers
  { s with mcpConfig := some ⟨setEntry base server cfg⟩ }

/-- `getMCPClientByName` after the lazy initialization step (lines
101-152): cache hit, else load the config, fail with `null` on a missing
server entry, else mint a client, connect (`null` on failure) and cache. -/
def getAfterInit (env : RegEnv) (server : String) (s : RegState) : Option Nat × RegState :=
  match lookupEntry s.mcpClients server with
  | some h => (some h, s)
  | none =>
    match loadMCPClientByConfig env s with
    | (.error _, s1) => (none, s1)
    | (.ok config, s1) =>
      match lookupEntry config.mcpServers server with
      | none => (none, s1)
      | some _cfg =>
        let h := s1.nextHandle
        let s2 := { s1 with nextHandle := h + 1 }
        if env.connectOK h then (some h, { s2 with mcpClients := setEntry s2.mcpClients server h })
        else (none, s2)

/-- `getMCPClientByName` (`providers/index.ts` 91-153): every failure
path, including a thrown configuration load, is caught and yields `null`
(`none`) — never a thrown `ConnectionError`. -/
def getMCPClientByName (env : RegEnv) (server : String) (s : RegState) : Option Nat × RegState :=
  if ¬ s.isConfigInitialized then
    match loadMCPClientByConfig env s with
    | (.error _, s1) => (none, s1)
    | (.ok c, s1) => getAfterInit env server (initializeMCP c s1)
  else getAfterInit env server s

/-- `updateMCPServer` (`providers/index.ts` 41-89): update the config,
drop the cached client, create and connect a fresh client (`null` on
connect failure), and cache it. -/
def updateMCPServer (env : RegEnv) (server : String) (cfg : MCPServerConfig)
    (s : RegState) : Option Nat × RegState :=
  let s := updateServerConfig server cfg s
  let s := { s with isConfigInitialized := true }
  let s :=
    if (lookupEntry s.mcpClients server).isSome then
      { s with mcpClients := delEntry s.mcpClients server }
    else s
  let h := s.nextHandle
  let s := { s with nextHandle := h + 1 }
  if env.connectOK h then (some h, { s with mcpClients := setEntry s.mcpClients server h })
  else (none, s)

/-- Registry invariant: every cached handle was minted earlier. -/
def RegWF (s : RegState) : Prop :=
  ∀ kv ∈ s.mcpClients, kv.2 < s.nextHandle


/-! ## Registry lemmas -/

theorem lookupEntry_setEntry_self {α : Type} (m : List (String × α)) (k : String) (v : α) :
    lookupEntry (setEntry m k v) k = some v := by
  induction m with
  | nil => simp [setEntry, lookupEntry]
  | cons kv m ih =>
    by_cases hk : kv.1 = k
    · simp [setEntry, hk, lookupEntry]
    · simp [setEntry, hk, lookupEntry, ih]

theorem mem_setEntry {α : Type} (m : List (String × α)) (k : String) (v : α) (kv' : String × α)
    (hmem : kv' ∈ setEntry m k v) : kv' = (k, v) ∨ kv' ∈ m := by
  induction m with
  | nil => simpa [setEntry] using hmem
  | cons kv m ih =>
    rw [setEntry] at hmem
    by_cases hk : kv.1 = k
    · rw [if_pos hk] at hmem
      rcases List.mem_cons.mp hmem with h1 | h1
      · exact Or.inl h1
      · exact Or.inr (List.mem_cons_of_mem _ h1)
    · rw [if_neg hk] at hmem
      rcases List.mem_cons.mp hmem with h1 | h1
      · exact Or.inr (by simp [h1])
      · rcases ih h1 with h2 | h2
        · exact Or.inl h2
        · exact Or.inr (List.mem_cons_of_mem _ h2)

theorem lookupEntry_delEntry_self {α : Type} (m : List (String × α)) (k : String) :
    lookupEntry (delEntry m k) k = none := by
  induction m with
  | nil => rfl
  | cons kv m ih =>
    by_cases hk : kv.1 = k
    · simpa [delEntry, hk] using ih
    · simpa [delEntry, hk, lookupEntry] using ih

theorem mem_delEntry {α : Type} (m : List (String × α)) (k : String) (kv : String × α)
    (hmem : kv ∈ delEntry m k) : kv ∈ m :=
  List.mem_of_mem_filter hmem

theorem loadConfig_preserves (env : RegEnv) (s : RegState) :
    (loadMCPClientByConfig env s).2.mcpClients = s.mcpClients ∧
    (loadMCPClientByConfig env s).2.nextHandle = s.nextHandle ∧
    (loadMCPClientByConfig env s).2.isConfigInitialized = s.isConfigInitialized := by
  unfold loadMCPClientByConfig
  rcases s.mcpConfig with _ | c
  · rcases env.fileConfig with e | c <;> exact ⟨rfl, rfl, rfl⟩
  · exact ⟨rfl, rfl, rfl⟩

theorem initializeMCP_clients (c : MCPConfig) (s : RegState) :
    (initializeMCP c s).mcpClients = s.mcpClients := by
  unfold initializeMCP; split <;> rfl

theorem initializeMCP_next (c : MCPConfig) (s : RegState) :
    (initializeMCP c s).nextHandle = s.nextHandle := by
  unfold initializeMCP; split <;> rfl

theorem initializeMCP_flag (c : MCPConfig) (s : RegState)
    (h : s.isConfigInitialized = false) : (initializeMCP c s).isConfigInitialized = true := by
  unfold initializeMCP; rw [h]; simp

theorem getAfterInit_cached (env : RegEnv) (x : String) (s : RegState) (h : Nat)
    (hc : lookupEntry s.mcpClients x = some h) : getAfterInit env x s = (some h, s) := by
  unfold getAfterInit; rw [hc]

theorem getAfterInit_load_error (env : RegEnv) (x : String) (s : RegState) (e : String)
    (s' : RegState) (hc : lookupEntry s.mcpClients x = none)
    (hload : loadMCPClientByConfig env s = (.error e, s')) :
    getAfterInit env x s = (none, s') := by
  unfold getAfterInit; rw [hc, hload]

theorem getAfterInit_no_server (env : RegEnv) (x : String) (s : RegState)
    (config : MCPConfig) (s' : RegState) (hc : lookupEntry s.mcpClients x = none)
    (hload : loadMCPClientByConfig env s = (.ok config, s'))
    (hsrv : lookupEntry config.mcpServers x = none) :
    getAfterInit env x s = (none, s') := by
  unfold getAfterInit; rw [hc, hload]; simp [hsrv]

theorem getAfterInit_fresh (env : RegEnv) (x : String) (s : RegState)
    (config : MCPConfig) (s' : RegState) (cfg : MCPServerConfig)
    (hc : lookupEntry s.mcpClients x = none)
    (hload : loadMCPClientByConfig env s = (.ok config, s'))
    (hsrv : lookupEntry config.mcpServers x = some cfg)
    (hconn : env.connectOK s'.nextHandle = true) :
    getAfterInit env x s =
      (some s'.nextHandle,
        { s' with nextHandle := s'.nextHandle + 1,
                  mcpClients := setEntry s'.mcpClients x s'.nextHandle }) := by
  unfold getAfterInit; rw [hc, hload]; simp [hsrv, hconn]

theorem getAfterInit_conn_fail (env : RegEnv) (x : String) (s : RegState)
    (config : MCPConfig) (s' : RegState) (cfg : MCPServerConfig)
    (hc : lookupEntry s.mcpClients x = none)
    (hload : loadMCPClientByConfig env s = (.ok config, s'))
    (hsrv : lookupEntry config.mcpServers x = some cfg)
    (hconn : env.connectOK s'.nextHandle = false) :
    getAfterInit env x s = (none, { s' with nextHandle := s'.nextHandle + 1 }) := by
  unfold getAfterInit; rw [hc, hload]; simp [hsrv, hconn]

/-- Structure of a successful `getAfterInit`: the returned handle is the
cached one or a freshly minted one, the handle ends up cached, the
initialization flag and well-formedness are preserved, and the mint
counter does not go backwards. -/
theorem getAfterInit_success (env : RegEnv) (x : String) (s : RegState) (h : Nat)
    (s1 : RegState) (hwf : RegWF s) (hget : getAfterInit env x s = (some h, s1)) :
    s1.isConfigInitialized = s.isConfigInitialized ∧
    lookupEntry s1.mcpClients x = some h ∧ RegWF s1 ∧
    s.nextHandle ≤ s1.nextHandle ∧
    (lookupEntry s.mcpClients x = some h ∨ s.nextHandle ≤ h) := by
  rcases hc : lookupEntry s.mcpClients x with _ | h0
  · rcases hload : loadMCPClientByConfig env s with ⟨le, s'⟩
    have hcl : s'.mcpClients = s.mcpClients := by
      have := (loadConfig_preserves env s).1; rw [hload] at this; exact this
    have hnh : s'.nextHandle = s.nextHandle := by
      have := (loadConfig_preserves env s).2.1; rw [hload] at this; exact this
    have hini : s'.isConfigInitialized = s.isConfigInitialized := by
      have := (loadConfig_preserves env s).2.2; rw [hload] at this; exact this
    cases le with
    | error e =>
      rw [getAfterInit_load_error env x s e s' hc hload] at hget
      exact absurd (congrArg Prod.fst hget) (by simp)
    | ok config =>
      rcases hsrv : lookupEntry config.mcpServers x with _ | cfg
      · rw [getAfterInit_no_server env x s config s' hc hload hsrv] at hget
        exact absurd (congrArg Prod.fst hget) (by simp)
      · rcases hconn : env.connectOK s'.nextHandle with _ | _
        · rw [getAfterInit_conn_fail env x s config s' cfg hc hload hsrv hconn] at hget
          exact absurd (congrArg Prod.fst hget) (by simp)
        · rw [getAfterInit_fresh env x s config s' cfg hc hload hsrv hconn] at hget
          rw [Prod.mk.injEq] at hget
          obtain ⟨h1, h2⟩ := hget
          have hh : s'.nextHandle = h := by injection h1
          subst h2
          refine ⟨hini, ?_, ?_, by simp; omega, Or.inr (by omega)⟩
          · rw [← hh]
            simpa using lookupEntry_setEntry_self s'.mcpClients x s'.nextHandle
          · intro kv hkv
            simp only at hkv
            rcases mem_setEntry _ _ _ _ hkv with rfl | hkv
            · simp
            · have := hwf kv (by rwa [hcl] at hkv)
              simp; omega
  · rw [getAfterInit_cached env x s h0 hc] at hget
    rw [Prod.mk.injEq] at hget
    obtain ⟨h1, h2⟩ := hget
    have hh : h0 = h := by injection h1
    subst h2
    subst hh
    exact ⟨rfl, hc, hwf, le_refl _, Or.inl rfl⟩

/-- Structure of a successful `getMCPClientByName`: on success the state
is initialised, the handle is cached, well-formedness is preserved, the
mint counter does not go backwards, and the handle is either the one
that was already cached or a fresh one. -/
theorem get_success (env : RegEnv) (x : String) (s : RegState) (h : Nat)
    (s1 : RegState) (hwf : RegWF s) (hget : getMCPClientByName env x s = (some h, s1)) :
    s1.isConfigInitialized = true ∧
    lookupEntry s1.mcpClients x = some h ∧ RegWF s1 ∧
    s.nextHandle ≤ s1.nextHandle ∧
    (lookupEntry s.mcpClients x = some h ∨ s.nextHandle ≤ h) := by
  unfold getMCPClientByName at hget
  rcases hin : s.isConfigInitialized with _ | _
  · rw [hin] at hget
    simp only [Bool.false_eq_true, not_false_iff, if_pos, reduceIte] at hget
    rcases hload : loadMCPClientByConfig env s with ⟨le, s'⟩
    rw [hload] at hget
    have hcl : s'.mcpClients = s.mcpClients := by
      have := (loadConfig_preserves env s).1; rw [hload] at this; exact this
    have hnh : s'.nextHandle = s.nextHandle := by
      have := (loadConfig_preserves env s).2.1; rw [hload] at this; exact this
    have hini : s'.isConfigInitialized = s.isConfigInitialized := by
      have := (loadConfig_preserves env s).2.2; rw [hload] at this; exact this
    cases le with
    | error e => exact absurd (congrArg Prod.fst hget) (by simp)
    | ok c =>
      simp only at hget
      have hwf2 : RegWF (initializeMCP c s') := by
        intro kv hkv
        rw [initializeMCP_clients, hcl] at hkv
        rw [initializeMCP_next, hnh]
        exact hwf kv hkv
      have hres := getAfterInit_success env x (initializeMCP c s') h s1 hwf2 hget
      refine ⟨?_, hres.2.1, hres.2.2.1, ?_, ?_⟩
      · rw [hres.1]
        exact initializeMCP_flag c s' (by rw [hini, hin])
      · have := hres.2.2.2.1
        rw [initializeMCP_next, hnh] at this
        omega
      · rcases hres.2.2.2.2 with hl | hr
        · left; rwa [initializeMCP_clients, hcl] at hl
        · right; rwa [initializeMCP_next, hnh] at hr
  · rw [hin] at hget
    simp only [not_true, Bool.true_eq_false, reduceIte] at hget
    have hres := getAfterInit_success env x s h s1 hwf hget
    exact ⟨by rw [hres.1, hin], hres.2.1, hres.2.2.1, hres.2.2.2.1, hres.2.2.2.2⟩

theorem updateMCPServer_ok (env : RegEnv) (x : String) (cfg : MCPServerConfig)
    (s : RegState) (hconn : env.connectOK s.nextHandle = true) :
    updateMCPServer env x cfg s =
      (some s.nextHandle,
        { mcpConfig := some ⟨setEntry (s.mcpConfig.getD ⟨[]⟩).mcpServers x cfg⟩,
          isConfigInitialized := true,
          mcpClients :=
            setEntry
              (if (lookupEntry s.mcpClients x).isSome then delEntry s.mcpClients x
               else s.mcpClients) x s.nextHandle,
          nextHandle := s.nextHandle + 1 }) := by
  by_cases hc : (lookupEntry s.mcpClients x).isSome <;>
    simp [updateMCPServer, updateServerConfig, hc, hconn]

theorem updateMCPServer_fail (env : RegEnv) (x : String) (cfg : MCPServerConfig)
    (s : RegState) (hconn : env.connectOK s.nextHandle = false) :
    updateMCPServer env x cfg s =
      (none,
        { mcpConfig := some ⟨setEntry (s.mcpConfig.getD ⟨[]⟩).mcpServers x cfg⟩,
          isConfigInitialized := true,
          mcpClients :=
            if (lookupEntry s.mcpClients x).isSome then delEntry s.mcpClients x
            else s.mcpClients,
          nextHandle := s.nextHandle + 1 }) := by
  by_cases hc : (lookupEntry s.mcpClients x).isSome <;>
    simp [updateMCPServer, updateServerConfig, hc, hconn]

/-- Structure of `updateMCPServer`: the flag is set, the mint counter
advances, well-formedness is preserved, and the cached entry for the
server is either dropped (connect failure) or the freshly minted
handle. -/
theorem update_structure (env : RegEnv) (x : String) (cfg : MCPServerConfig)
    (s : RegState) (r : Option Nat) (s2 : RegState) (hwf : RegWF s)
    (hupd : updateMCPServer env x cfg s = (r, s2)) :
    s2.isConfigInitialized = true ∧ s2.nextHandle = s.nextHandle + 1 ∧ RegWF s2 ∧
    (lookupEntry s2.mcpClients x = none ∨ lookupEntry s2.mcpClients x = some s.nextHandle) := by
  have hm1lookup :
      lookupEntry
        (if (lookupEntry s.mcpClients x).isSome then delEntry s.mcpClients x
         else s.mcpClients) x = none := by
    by_cases hc : (lookupEntry s.mcpClients x).isSome
    · rw [if_pos hc]
      exact lookupEntry_delEntry_self s.mcpClients x
    · rw [if_neg hc]
      cases hl : lookupEntry s.mcpClients x with
      | none => rfl
      | some v => rw [hl] at hc; simp at hc
  have hm1mem :
      ∀ kv ∈ (if (lookupEntry s.mcpClients x).isSome then delEntry s.mcpClients x
              else s.mcpClients), kv ∈ s.mcpClients := by
    intro kv hkv
    by_cases hc : (lookupEntry s.mcpClients x).isSome
    · rw [if_pos hc] at hkv
      exact mem_delEntry _ _ _ hkv
    · rwa [if_neg hc] at hkv
  rcases hconn : env.connectOK s.nextHandle with _ | _
  · rw [updateMCPServer_fail env x cfg s hconn] at hupd
    rw [Prod.mk.injEq] at hupd
    obtain ⟨h1, h2⟩ := hupd
    subst h2
    refine ⟨rfl, rfl, ?_, Or.inl hm1lookup⟩
    intro kv hkv
    simp only at hkv ⊢
    have := hwf kv (hm1mem kv hkv)
    omega
  · rw [updateMCPServer_ok env x cfg s hconn] at hupd
    rw [Prod.mk.injEq] at hupd
    obtain ⟨h1, h2⟩ := hupd
    subst h2
    refine ⟨rfl, rfl, ?_, Or.inr ?_⟩
    · intro kv hkv
      simp only at hkv ⊢
      rcases mem_setEntry _ _ _ _ hkv with rfl | hkv
      · simp
      · have := hwf kv (hm1mem kv hkv)
        omega
    · simpa using lookupEntry_setEntry_self _ x s.nextHandle

/-- A cache hit: `get` on an initialised state with a cached entry
returns it unchanged. -/
theorem get_cached (env : RegEnv) (x : String) (s : RegState) (h : Nat)
    (hin : s.isConfigInitialized = true) (hc : lookupEntry s.mcpClients x = some h) :
    getMCPClientByName env x s = (some h, s) := by
  unfold getMCPClientByName
  rw [hin]
  simp only [not_true, Bool.true_eq_false, reduceIte]
  exact getAfterInit_cached env x s h hc

theorem lookupEntry_mem {α : Type} (m : List (String × α)) (k : String) (v : α)
    (h : lookupEntry m k = some v) : (k, v) ∈ m := by
  induction m with
  | nil => simp [lookupEntry] at h
  | cons kv m ih =>
    rw [lookupEntry] at h
    by_cases hk : kv.1 = k
    · rw [if_pos hk] at h
      have hv : kv.2 = v := by injection h
      have : kv = (k, v) := Prod.ext hk hv
      rw [← this]
      exact List.mem_cons_self kv m
    · rw [if_neg hk] at h
      exact List.mem_cons_of_mem _ (ih h)

/-- C4: two `get` calls for the same server id with no intervening
update or invalidation return the identical cached handle, and after an
`update` for that id the next `get` returns a different handle (handles
are minted fresh by a counter, modelling reference identity of
`new Client(...)`). -/
theorem c4_registry_handle_identity
    (env : RegEnv) (x : String) (s : RegState) (h : Nat) (s1 : RegState)
    (hwf : RegWF s) (hget : getMCPClientByName env x s = (some h, s1)) :
    getMCPClientByName env x s1 = (some h, s1) ∧
    ∀ cfg2 r s2 h2 s3, updateMCPServer env x cfg2 s1 = (r, s2) →
      getMCPClientByName env x s2 = (some h2, s3) → h2 ≠ h := by
  obtain ⟨hin1, hc1, hwf1, hle1, -⟩ := get_success env x s h s1 hwf hget
  constructor
  · exact get_cached env x s1 h hin1 hc1
  · intro cfg2 r s2 h2 s3 hupd hget2
    have hh : h < s1.nextHandle := hwf1 (x, h) (lookupEntry_mem _ _ _ hc1)
    obtain ⟨hin2, hnh2, hwf2, hdisj⟩ := update_structure env x cfg2 s1 r s2 hwf1 hupd
    obtain ⟨-, -, -, -, hcases⟩ := get_success env x s2 h2 s3 hwf2 hget2
    rcases hcases with hl | hr
    · rcases hdisj with hnone | hsome
      · rw [hl] at hnone; exact absurd hnone (by simp)
      · rw [hl] at hsome
        have : h2 = s1.nextHandle := by injection hsome
        omega
    · omega

/-- Concrete registry scenario: a one-server configuration, connections
always succeed. -/
def regEnvW : RegEnv :=
  { fileConfig := .ok ⟨[("x", { command := "uvx" })]⟩, connectOK := fun _ => true }

def regW0 : RegState := {}

/-- The state after the first successful `get("x")` from `regW0`. -/
def regW1 : RegState :=
  { mcpConfig := some ⟨[("x", { command := "uvx" })]⟩, isConfigInitialized := true,
    mcpClients := [("x", 0)], nextHandle := 1 }

def cfgW2 : MCPServerConfig := { command := "npx" }

/-- The state after `update("x", cfgW2)` from `regW1`. -/
def regW2 : RegState :=
  { mcpConfig := some ⟨[("x", cfgW2)]⟩, isConfigInitialized := true,
    mcpClients := [("x", 1)], nextHandle := 2 }

/-- C4 witness: on the concrete one-server registry, the handle minted
by the first `get` is returned identically by the second `get`, and the
handle obtained after `update` differs. -/
theorem c4_witness :
    getMCPClientByName regEnvW "x" regW1 = (some 0, regW1) ∧ (1 : Nat) ≠ 0 :=
  have h := c4_registry_handle_identity regEnvW "x" regW0 0 regW1
    (by intro kv hkv; simp [regW0] at hkv) (by rfl)
  ⟨h.1, h.2 cfgW2 (some 1) regW2 1 regW2 (by rfl) (by rfl)⟩

/-- C5 (amended): `getMCPClientByName` signals failure by returning
`null` (`none`), not by raising an error: if the server is missing from
the configuration, or connecting the launched process fails, `get`
returns `none`.  (No `ConnectionError` type exists in the code; every
failure path of `getMCPClientByName` is `return null`.) -/
theorem c5_get_returns_null
    (env : RegEnv) (server : String) (s : RegState) (c : MCPConfig)
    (hin : s.isConfigInitialized = true) (hmc : s.mcpConfig = some c)
    (hcache : lookupEntry s.mcpClients server = none)
    (hfail : lookupEntry c.mcpServers server = none ∨ env.connectOK s.nextHandle = false) :
    (getMCPClientByName env server s).1 = none := by
  unfold getMCPClientByName
  rw [hin]
  simp only [not_true, Bool.true_eq_false, reduceIte]
  have hload : loadMCPClientByConfig env s = (.ok c, s) := by
    unfold loadMCPClientByConfig; rw [hmc]
  rcases hfail with hmiss | hconn
  · rw [getAfterInit_no_server env server s c s hcache hload hmiss]
  · rcases hsrv : lookupEntry c.mcpServers server with _ | cfg
    · rw [getAfterInit_no_server env server s c s hcache hload hsrv]
    · rw [getAfterInit_conn_fail env server s c s cfg hcache hload hsrv hconn]

/-- C5 witness: a server id absent from the configuration, and a
connection failure, both make `get` return `none`. -/
theorem c5_witness :
    (getMCPClientByName regEnvW "y" regW1).1 = none ∧
    (getMCPClientByName
      { fileConfig := regEnvW.fileConfig, connectOK := fun _ => false } "x" regW0).1 = none :=
  ⟨c5_get_returns_null regEnvW "y" regW1 ⟨[("x", { command := "uvx" })]⟩
      (by rfl) (by rfl) (by rfl) (Or.inl (by rfl)),
   by rfl⟩

/-- C5 counterexample: the claim says a missing configuration entry (or
an unresponsive process) makes `get` fail with a `ConnectionError`, "an
error, not a normal (null) return value".  On the code, both failures
are ordinary `null` returns out of a catch-all — here, `get` on the
unconfigured server id `"y"` returns `none` with the state unchanged,
and the connect-failure case also returns `none`; no error is raised
(there is no `ConnectionError` anywhere in the repository). -/
theorem c5_counterexample :
    getMCPClientByName regEnvW "y" regW1 = (none, regW1) ∧
    (getMCPClientByName
      { fileConfig := regEnvW.fileConfig, connectOK := fun _ => false } "x" regW0).1 = none := by
  constructor <;> rfl

/-! ## Tool-loop bound (non-streaming `chat`) -/

/-- Bound and final-call shape of the `chat` loop: with `fuel` remaining
iterations, at most `fuel + 1` further generation calls are made, and if
that bound is reached the last call carries no tools and its response is
what `chat` returns. -/
theorem chatLoop_bound (env : ChatEnv) (isYolo : Bool) :
    ∀ (fuel : Nat) (msgs : List Message) (tr : List GenCall)
      (inv : List (Nat × String × String)),
      (chatLoop env isYolo fuel msgs tr inv).trace.length ≤ tr.length + fuel + 1 ∧
      ((chatLoop env isYolo fuel msgs tr inv).trace.length = tr.length + fuel + 1 →
        ∃ m, (chatLoop env isYolo fuel msgs tr inv).trace.getLast? = some ⟨m, []⟩ ∧
          (chatLoop env isYolo fuel msgs tr inv).result =
            .ok (env.gen (tr.length + fuel) ⟨m, []⟩)) := by
  intro fuel
  induction fuel with
  | zero =>
    intro msgs tr inv
    constructor
    · simp [chatLoop, chatFinal]
    · intro _
      exact ⟨msgs, by simp [chatLoop, chatFinal], by simp [chatLoop, chatFinal]⟩
  | succ fuel ih =>
    intro msgs tr inv
    rw [chatLoop]
    rcases htools : (if isYolo ∧ ¬ env.clients.isEmpty then env.toolsFor tr.length
                     else Except.ok []) with e | tools
    · constructor
      · simp; omega
      · intro hlen; simp at hlen; omega
    · simp only
      rcases hchoice : (env.gen tr.length ⟨msgs, tools⟩).choice with _ | ch
      · constructor
        · simp [chatFinal]
        · intro hlen
          simp [chatFinal] at hlen
          have hf : fuel = 0 := by omega
          subst hf
          exact ⟨msgs, by simp [chatFinal], by simp [chatFinal]⟩
      · simp only
        by_cases hfin : ch.finish_reason ≠ some "tool_calls" ∨ ch.tool_calls = none
        · rw [if_pos hfin]
          constructor
          · simp
          · intro hlen; simp at hlen
        · rw [if_neg hfin]
          rcases hproc : processNSCalls env tools (ch.tool_calls.getD []) inv with ⟨res, inv2⟩
          cases res with
          | error e =>
            constructor
            · simp
            · intro hlen; simp at hlen
          | ok results =>
            simp only
            set msgs2 := msgs ++
              ({ role := .assistant, content := ch.content,
                 tool_calls := (ch.tool_calls.getD []).map (fun c =>
                   ⟨c.id, ((c.fn.map NSFun.name).getD ""), ((c.fn.map NSFun.arguments).getD "")⟩) } : Message) ::
              results.map mkToolMsg with hmsgs2
            have hrec := ih msgs2 (tr ++ [⟨msgs, tools⟩]) inv2
            constructor
            · have := hrec.1
              simp only [List.length_append, List.length_cons, List.length_nil] at this ⊢
              omega
            · intro hlen
              have hlen' : (chatLoop env isYolo fuel msgs2
                    (tr ++ [(⟨msgs, tools⟩ : GenCall)]) inv2).trace.length
                  = (tr ++ [(⟨msgs, tools⟩ : GenCall)]).length + fuel + 1 := by
                simp only [List.length_append, List.length_cons, List.length_nil] at hlen ⊢
                omega
              obtain ⟨m, hm1, hm2⟩ := hrec.2 hlen'
              refine ⟨m, hm1, ?_⟩
              rw [hm2]
              have hidx : (tr ++ [(⟨msgs, tools⟩ : GenCall)]).length + fuel = tr.length + (fuel + 1) := by
                simp only [List.length_append, List.length_cons, List.length_nil]
                omega
              rw [hidx]

/-- C3: for every model backend — including one that always answers with
`finish_reason = 'tool_calls'` — the `chat` tool loop makes at most
`MAX_TOOL_LOOPS + 1` generation calls (`MAX_TOOL_LOOPS = 5`), and when
the bound is reached the final generation call carries no tools and its
response is what `chat` returns. -/
theorem c3_loop_bound (env : ChatEnv) (isYolo : Bool) (msgs : List Message) :
    MAX_TOOL_LOOPS = 5 ∧
    (chat env isYolo msgs).trace.length ≤ MAX_TOOL_LOOPS + 1 ∧
    ((chat env isYolo msgs).trace.length = MAX_TOOL_LOOPS + 1 →
      ∃ m, (chat env isYolo msgs).trace.getLast? = some ⟨m, []⟩ ∧
        (chat env isYolo msgs).result = .ok (env.gen MAX_TOOL_LOOPS ⟨m, []⟩)) := by
  have h := chatLoop_bound env isYolo MAX_TOOL_LOOPS msgs [] []
  refine ⟨rfl, ?_, ?_⟩
  · have := h.1; simpa [chat] using this
  · intro hlen
    have hlen' : (chatLoop env isYolo MAX_TOOL_LOOPS msgs [] []).trace.length
        = ([] : List GenCall).length + MAX_TOOL_LOOPS + 1 := by
      simpa [chat] using hlen
    obtain ⟨m, hm1, hm2⟩ := h.2 hlen'
    exact ⟨m, by simpa [chat] using hm1, by simpa [chat] using hm2⟩

/-- A stub backend that always requests tool calls (with an empty
`tool_calls` array, which the loop happily processes and re-queries). -/
def stubToolCallsEnv : ChatEnv :=
  { gen := fun _k _req =>
      { choice := some { finish_reason := some "tool_calls", content := "", tool_calls := some [] } },
    toolsFor := fun _ => .ok [],
    clients := [],
    invoke := fun _ _ _ => .ok Json.null }

/-- C3 witness: against the always-`tool_calls` stub the loop makes
exactly `MAX_TOOL_LOOPS + 1 = 6` generation calls and the last one is
tool-free. -/
theorem c3_witness :
    (chat stubToolCallsEnv false []).trace.length = MAX_TOOL_LOOPS + 1 ∧
    (∃ m, (chat stubToolCallsEnv false []).trace.getLast? = some ⟨m, []⟩ ∧
      (chat stubToolCallsEnv false []).result = .ok (stubToolCallsEnv.gen MAX_TOOL_LOOPS ⟨m, []⟩)) :=
  ⟨rfl, (c3_loop_bound stubToolCallsEnv false []).2.2 rfl⟩

/-! ## Stream frame lemmas -/

def Frame.isDone : Frame → Bool
  | .done => true
  | _ => false

def Frame.isNeedConfirm : Frame → Bool
  | .needConfirm _ => true
  | _ => false

def Frame.isToolResult : Frame → Bool
  | .toolResult _ _ => true
  | _ => false

def Frame.isToolError : Frame → Bool
  | .toolError _ => true
  | _ => false

def Frame.isErrorFrame : Frame → Bool
  | .error _ => true
  | _ => false

/-- Number of frames of a given kind in the outward stream. -/
def countF (p : Frame → Bool) (l : List Frame) : Nat := (l.filter p).length

theorem countF_append (p : Frame → Bool) (l1 l2 : List Frame) :
    countF p (l1 ++ l2) = countF p l1 + countF p l2 := by
  simp [countF, List.filter_append]

theorem send_streamEnded (f : Frame) (s : SState) : (send f s).streamEnded = s.streamEnded := by
  unfold send writeF; split <;> rfl

theorem send_messages (f : Frame) (s : SState) : (send f s).messages = s.messages := by
  unfold send writeF; split <;> rfl

theorem send_invoked (f : Frame) (s : SState) : (send f s).invoked = s.invoked := by
  unfold send writeF; split <;> rfl

theorem send_toolResults (f : Frame) (s : SState) : (send f s).toolResults = s.toolResults := by
  unfold send writeF; split <;> rfl

theorem countF_send (p : Frame → Bool) (f : Frame) (s : SState) (hf : p f = false) :
    countF p (send f s).frames = countF p s.frames := by
  unfold send writeF; split
  · rfl
  · simp [countF, List.filter_append, hf]

theorem countF_writeF (p : Frame → Bool) (f : Frame) (s : SState) :
    countF p (writeF f s).frames = countF p s.frames + (if p f then 1 else 0) := by
  unfold writeF
  simp only [countF, List.filter_append]
  split <;> simp_all

theorem invokeOk_preserves (s2 s' : SState) (tr : List ToolResultRec)
    (hse : s2.streamEnded = s'.streamEnded)
    (hcf : countF Frame.isDone s2.frames = countF Frame.isDone s'.frames)
    (hm : s2.messages = s'.messages) :
    ((if s2.streamEnded = true then s2 else { s2 with toolResults := tr }).streamEnded
        = s'.streamEnded) ∧
    countF Frame.isDone
        (if s2.streamEnded = true then s2 else { s2 with toolResults := tr }).frames
      = countF Frame.isDone s'.frames ∧
    (if s2.streamEnded = true then s2 else { s2 with toolResults := tr }).messages
      = s'.messages := by
  by_cases h : s2.streamEnded = true
  · rw [if_pos h]; exact ⟨hse, hcf, hm⟩
  · rw [if_neg h]; exact ⟨hse, hcf, hm⟩

/-- `finalize` on one tracked call never writes a terminal frame, never
closes the stream and never touches the message history. -/
theorem processState_preserves (env : StreamEnv) (clients : List String)
    (st : ToolCallState) (s : SState) :
    (processState env clients st s).streamEnded = s.streamEnded ∧
    countF Frame.isDone (processState env clients st s).frames = countF Frame.isDone s.frames ∧
    (processState env clients st s).messages = s.messages := by
  unfold processState
  repeat' split
  all_goals first
    | exact ⟨send_streamEnded _ _, countF_send _ _ _ rfl, send_messages _ _⟩
    | exact invokeOk_preserves _ _ _ (send_streamEnded _ _) (countF_send _ _ _ rfl)
        (send_messages _ _)

theorem foldl_processState_preserves (env : StreamEnv) (clients : List String) :
    ∀ (sts : List ToolCallState) (s : SState),
      ((sts.foldl (fun s st => processState env clients st s) s).streamEnded = s.streamEnded) ∧
      countF Frame.isDone
          ((sts.foldl (fun s st => processState env clients st s) s)).frames
        = countF Frame.isDone s.frames := by
  intro sts
  induction sts with
  | nil => intro s; exact ⟨rfl, rfl⟩
  | cons st sts ih =>
    intro s
    simp only [List.foldl_cons]
    have h1 := processState_preserves env clients st s
    have h2 := ih (processState env clients st s)
    exact ⟨h2.1.trans h1.1, h2.2.trans h1.2.1⟩

theorem endStream_of_ended (s : SState) (h : s.streamEnded = true) : endStream s = s := by
  unfold endStream; rw [h]; simp

theorem endStream_ended (s : SState) : (endStream s).streamEnded = true := by
  unfold endStream
  by_cases h : s.streamEnded = true
  · rw [if_pos h]; exact h
  · rw [if_neg h]

theorem countF_done_endStream (s : SState) (h : s.streamEnded = false) :
    countF Frame.isDone (endStream s).frames = countF Frame.isDone s.frames + 1 := by
  unfold endStream
  rw [h]
  simp only [Bool.false_eq_true, reduceIte]
  split <;> simp [countF, List.filter_append, Frame.isDone]

/-- The chunk loop writes exactly one terminal frame when it takes the
`finish_reason = 'tool_calls'` exit, and none otherwise; the third
component records which exit was taken. -/
theorem runChunks_done (env : StreamEnv) (clients : List String) :
    ∀ (chunks : List Chunk) (states : List ToolCallState) (s : SState),
      s.streamEnded = false →
      countF Frame.isDone (runChunks env clients chunks states s).2.1.frames
        = countF Frame.isDone s.frames +
          (if (runChunks env clients chunks states s).2.2 then 1 else 0) := by
  intro chunks
  induction chunks with
  | nil => intro states s _; simp [runChunks]
  | cons ch rest ih =>
    intro states s hs
    rw [runChunks]
    have hw : (writeF (Frame.raw ch) s).streamEnded = false := hs
    have hwc : countF Frame.isDone (writeF (Frame.raw ch) s).frames
        = countF Frame.isDone s.frames := by
      rw [countF_writeF]; simp [Frame.isDone]
    by_cases hfin : ch.finish_reason = some "tool_calls"
    · rw [if_pos hfin]
      have hfold := foldl_processState_preserves env clients
        (ch.tool_calls.foldl ingestFragment states) (writeF (Frame.raw ch) s)
      have hend := countF_done_endStream _ (hfold.1.trans hw)
      rw [hend, hfold.2, hwc]
      simp
    · rw [if_neg hfin]
      rw [ih _ _ hw, hwc]

/-- C2 (amended): the `endStream` operation is idempotent, and on every
exit path on which the backend stream is delivered without throwing
(tool-manifest failure, `tool_calls` finalization, normal completion)
`chatStream` writes exactly one terminal `[DONE]` frame.  (A rejection
of the backend call itself propagates out of `chatStream` with no
terminal frame written by it; only some exits are funnelled through
`endStream` — the others write the terminal frame directly, once.) -/
theorem c2_done_frame :
    (∀ s : SState, endStream (endStream s) = endStream s) ∧
    ∀ (env : StreamEnv) (p : StreamParams) (chunks : List Chunk),
      env.backendChunks = .ok chunks →
      ∃ s, chatStream env p = .returned s ∧ countF Frame.isDone s.frames = 1 := by
  constructor
  · intro s
    exact endStream_of_ended (endStream s) (endStream_ended s)
  · intro env p chunks hbc
    rw [chatStream]
    simp only [MAX_TOOL_LOOPS, OfNat.ofNat_ne_zero, reduceIte]
    rw [chatStreamBody]
    rcases htl : (if p.isYolo ∧ mcpClientsOf p ≠ [] then env.toolList else .ok []) with e | tools
    · refine ⟨_, rfl, ?_⟩
      have hs0 : (send (Frame.error ("Error preparing tools: " ++ e))
          { messages := p.messages : SState }).streamEnded = false :=
        send_streamEnded _ _
      rw [countF_done_endStream _ hs0]
      rw [countF_send _ _ _ rfl]
      rfl
    · rw [hbc]
      have hcount := runChunks_done env (mcpClientsOf p) chunks []
        { messages := p.messages } rfl
      by_cases hearly :
          (runChunks env (mcpClientsOf p) chunks [] { messages := p.messages }).2.2 = true
      · refine ⟨(runChunks env (mcpClientsOf p) chunks [] { messages := p.messages }).2.1,
          ?_, ?_⟩
        · simp only [hearly, reduceIte]
        · rw [hearly] at hcount
          simpa using hcount
      · rw [Bool.not_eq_true] at hearly
        refine ⟨writeF Frame.done
            (runChunks env (mcpClientsOf p) chunks [] { messages := p.messages }).2.1,
          ?_, ?_⟩
        · simp only [hearly, Bool.false_eq_true, reduceIte]
        · rw [hearly] at hcount
          rw [countF_writeF, hcount]
          rfl


/-- C2 witness: a concrete empty-chunk stream yields exactly one
terminal frame. -/
theorem c2_witness :
    ∃ s, chatStream
        { toolList := .ok [], backendChunks := .ok [], invoke := fun _ _ _ => .ok Json.null }
        {} = .returned s ∧ countF Frame.isDone s.frames = 1 :=
  c2_done_frame.2
    { toolList := .ok [], backendChunks := .ok [], invoke := fun _ _ _ => .ok Json.null }
    {} [] rfl

/-- C2 counterexample: the claim says exactly one terminal `[DONE]`
frame is written on EVERY exit path, fatal error included, enforced by
funneling every exit through the idempotent end operation.  But when
`openai.chat.completions.create` rejects, the exception propagates out
of `chatStream` before anything is written: the outward stream holds no
terminal frame at all (and the normal exits at lines 639-656 bypass
`endStream`, writing `[DONE]` directly). -/
theorem c2_counterexample :
    chatStream
        { toolList := .ok [], backendChunks := .error "boom", invoke := fun _ _ _ => .ok Json.null }
        {} = .threw "boom" { messages := [] } ∧
    countF Frame.isDone
      (chatStream
        { toolList := .ok [], backendChunks := .error "boom", invoke := fun _ _ _ => .ok Json.null }
        {}).state.frames = 0 :=
  ⟨rfl, rfl⟩

/-! ## The no-clients finalization path (isYolo off, or no server names) -/

/-- With no MCP clients, `finalize` turns EVERY tracked call into exactly
one `tool_error` frame: either the arguments fail to resolve, or the
resolved call dies on `mcpClients[0].invokeTool` (a `TypeError`). -/
theorem processState_noClients (env : StreamEnv) (st : ToolCallState) (s : SState) :
    ∃ m, processState env [] st s = send (Frame.toolError m) s := by
  unfold processState
  repeat' split
  all_goals first
    | exact ⟨_, rfl⟩
    | simp_all

theorem send_toolError_eq (m : String) (s : SState) (hs : s.streamEnded = false) :
    send (Frame.toolError m) s = { s with frames := s.frames ++ [Frame.toolError m] } := by
  unfold send writeF
  rw [hs]
  simp

theorem foldl_noClients (env : StreamEnv) :
    ∀ (sts : List ToolCallState) (s : SState), s.streamEnded = false →
      ∃ errs : List Frame,
        (sts.foldl (fun s st => processState env [] st s) s)
          = { s with frames := s.frames ++ errs } ∧
        errs.length = sts.length ∧ ∀ f ∈ errs, Frame.isToolError f = true := by
  intro sts
  induction sts with
  | nil =>
    intro s hs
    refine ⟨[], by simp, rfl, by simp⟩
  | cons st sts ih =>
    intro s hs
    simp only [List.foldl_cons]
    obtain ⟨m, hm⟩ := processState_noClients env st s
    rw [hm, send_toolError_eq m s hs]
    obtain ⟨errs, h1, h2, h3⟩ :=
      ih { s with frames := s.frames ++ [Frame.toolError m] } hs
    refine ⟨Frame.toolError m :: errs, ?_, by simp [h2], ?_⟩
    · rw [h1]
      simp
    · intro f hf
      rcases List.mem_cons.mp hf with rfl | hf
      · rfl
      · exact h3 f hf

theorem endStream_noResults (s : SState) (hse : s.streamEnded = false)
    (htr : s.toolResults = []) :
    endStream s = { s with frames := s.frames ++ [Frame.done], streamEnded := true } := by
  unfold endStream
  rw [hse, htr]
  simp [htr]

/-- With no clients, a chunk stream whose first finisher is `fin` yields:
all chunks up to and including `fin` passed through raw, one `tool_error`
frame per tracked call, one terminal frame, and no tool result, no
appended message and no invocation. -/
theorem runChunks_noClients (env : StreamEnv) :
    ∀ (pre : List Chunk) (fin : Chunk) (post : List Chunk)
      (states : List ToolCallState) (s : SState),
      s.streamEnded = false → s.toolResults = [] →
      (∀ c ∈ pre, c.finish_reason ≠ some "tool_calls") →
      fin.finish_reason = some "tool_calls" →
      ∃ errs : List Frame,
        (runChunks env [] (pre ++ fin :: post) states s).2.1 =
          { frames := s.frames ++ ((pre ++ [fin]).map Frame.raw) ++ errs ++ [Frame.done],
            streamEnded := true, toolResults := [], messages := s.messages,
            invoked := s.invoked } ∧
        (runChunks env [] (pre ++ fin :: post) states s).2.2 = true ∧
        errs.length = ((pre ++ [fin]).foldl
          (fun acc c => c.tool_calls.foldl ingestFragment acc) states).length ∧
        ∀ f ∈ errs, Frame.isToolError f = true := by
  intro pre
  induction pre with
  | nil =>
    intro fin post states s hse htr _hpre hfin
    simp only [List.nil_append]
    rw [runChunks, if_pos hfin]
    have hw : (writeF (Frame.raw fin) s).streamEnded = false := hse
    have hwt : (writeF (Frame.raw fin) s).toolResults = [] := htr
    obtain ⟨errs, h1, h2, h3⟩ := foldl_noClients env
      (fin.tool_calls.foldl ingestFragment states) (writeF (Frame.raw fin) s) hw
    have hfse : (List.foldl (fun s st => processState env [] st s)
        (writeF (Frame.raw fin) s) (List.foldl ingestFragment states fin.tool_calls)).streamEnded
        = false := by rw [h1]; exact hw
    have hftr : (List.foldl (fun s st => processState env [] st s)
        (writeF (Frame.raw fin) s) (List.foldl ingestFragment states fin.tool_calls)).toolResults
        = [] := by rw [h1]; exact hwt
    refine ⟨errs, ?_, rfl, ?_, h3⟩
    · rw [endStream_noResults _ hfse hftr, h1]
      simp [writeF, htr]
    · exact h2
  | cons c pre ih =>
    intro fin post states s hse htr hpre hfin
    have hcfin : c.finish_reason ≠ some "tool_calls" := hpre c (by simp)
    simp only [List.cons_append]
    rw [runChunks, if_neg hcfin]
    have hw : (writeF (Frame.raw c) s).streamEnded = false := hse
    have hwt : (writeF (Frame.raw c) s).toolResults = [] := htr
    obtain ⟨errs, h1, hT, h2, h3⟩ := ih fin post (c.tool_calls.foldl ingestFragment states)
      (writeF (Frame.raw c) s) hw hwt (fun c hc => hpre c (by simp [hc])) hfin
    refine ⟨errs, ?_, hT, ?_, h3⟩
    · rw [h1]
      simp [writeF]
    · exact h2


theorem countF_eq_zero (p : Frame → Bool) (l : List Frame)
    (h : ∀ f ∈ l, p f = false) : countF p l = 0 := by
  induction l with
  | nil => rfl
  | cons f l ih =>
    have hf := h f (by simp)
    simp only [countF, List.filter_cons, hf, Bool.false_eq_true, reduceIte]
    exact ih (fun f hf => h f (by simp [hf]))

theorem toolError_class (f : Frame) (h : Frame.isToolError f = true) :
    Frame.isNeedConfirm f = false ∧ Frame.isToolResult f = false ∧
    Frame.isErrorFrame f = false ∧ Frame.isDone f = false := by
  cases f <;> simp_all [Frame.isToolError, Frame.isNeedConfirm, Frame.isToolResult,
    Frame.isErrorFrame, Frame.isDone]

theorem raw_class (c : Chunk) :
    Frame.isNeedConfirm (Frame.raw c) = false ∧ Frame.isToolResult (Frame.raw c) = false ∧
    Frame.isErrorFrame (Frame.raw c) = false := ⟨rfl, rfl, rfl⟩

/-- A `chatStream` run with no MCP clients whose backend finishes a turn
with `tool_calls` passes the chunks through, emits one `tool_error`
frame per tracked call, one terminal frame, and emits no `need_confirm`,
no `tool_result` and no `error` frame; no invocation reaches a tool. -/
theorem chatStream_noClients (env : StreamEnv) (p : StreamParams)
    (pre : List Chunk) (fin : Chunk) (post : List Chunk)
    (hcl : mcpClientsOf p = [])
    (hbc : env.backendChunks = .ok (pre ++ fin :: post))
    (hpre : ∀ c ∈ pre, c.finish_reason ≠ some "tool_calls")
    (hfin : fin.finish_reason = some "tool_calls") :
    ∃ errs : List Frame,
      chatStream env p = .returned
        { frames := ((pre ++ [fin]).map Frame.raw) ++ errs ++ [Frame.done],
          streamEnded := true, toolResults := [], messages := p.messages, invoked := [] } ∧
      errs.length = ((pre ++ [fin]).foldl
        (fun acc c => c.tool_calls.foldl ingestFragment acc) []).length ∧
      (∀ f ∈ errs, Frame.isToolError f = true) ∧
      countF Frame.isNeedConfirm (((pre ++ [fin]).map Frame.raw) ++ errs ++ [Frame.done]) = 0 ∧
      countF Frame.isToolResult (((pre ++ [fin]).map Frame.raw) ++ errs ++ [Frame.done]) = 0 ∧
      countF Frame.isErrorFrame (((pre ++ [fin]).map Frame.raw) ++ errs ++ [Frame.done]) = 0 := by
  obtain ⟨errs, h1, hT, h2, h3⟩ := runChunks_noClients env pre fin post []
    ({ messages := p.messages } : SState) rfl rfl hpre hfin
  refine ⟨errs, ?_, by simpa using h2, h3, ?_, ?_, ?_⟩
  · rw [chatStream]
    simp only [MAX_TOOL_LOOPS, OfNat.ofNat_ne_zero, reduceIte]
    rw [chatStreamBody]
    rcases htl : (if p.isYolo ∧ mcpClientsOf p ≠ [] then env.toolList else .ok []) with e | tools
    · rw [hcl] at htl
      simp at htl
    · rw [hbc, hcl]
      simp only [hT, reduceIte, h1]
      simp
  all_goals
    refine countF_eq_zero _ _ (fun f hf => ?_)
  all_goals
    rcases List.mem_append.mp hf with hf | hf
    · rcases List.mem_append.mp hf with hf | hf
      · obtain ⟨c, -, rfl⟩ := List.mem_map.mp hf
        first
          | exact (raw_class c).1
          | exact (raw_class c).2.1
          | exact (raw_class c).2.2
      · first
          | exact (toolError_class f (h3 f hf)).1
          | exact (toolError_class f (h3 f hf)).2.1
          | exact (toolError_class f (h3 f hf)).2.2.1
    · rcases List.mem_singleton.mp hf with rfl
      rfl


/-- C6 (amended): for a streaming request with `isYolo = false` whose
model turn finishes with a tool-call request, `chatStream` emits NO
`need_confirm` frame (the code has no confirmation path): it attempts
finalization with an empty client list, emitting one `tool_error` frame
per tracked call, then the terminal `[DONE]` frame; no `tool_result`
frame is emitted and no tool invocation reaches the tool layer. -/
theorem c6_confirmation_missing (env : StreamEnv) (p : StreamParams)
    (pre : List Chunk) (fin : Chunk) (post : List Chunk)
    (hyolo : p.isYolo = false)
    (hbc : env.backendChunks = .ok (pre ++ fin :: post))
    (hpre : ∀ c ∈ pre, c.finish_reason ≠ some "tool_calls")
    (hfin : fin.finish_reason = some "tool_calls") :
    ∃ s errs, chatStream env p = .returned s ∧
      s.frames = ((pre ++ [fin]).map Frame.raw) ++ errs ++ [Frame.done] ∧
      errs.length = ((pre ++ [fin]).foldl
        (fun acc c => c.tool_calls.foldl ingestFragment acc) []).length ∧
      (∀ f ∈ errs, Frame.isToolError f = true) ∧
      countF Frame.isNeedConfirm s.frames = 0 ∧
      countF Frame.isToolResult s.frames = 0 ∧
      s.invoked = [] ∧
      s.frames.getLast? = some Frame.done := by
  have hcl : mcpClientsOf p = [] := by simp [mcpClientsOf, hyolo]
  obtain ⟨errs, hrun, hlen, herrs, hnc, htr, he⟩ :=
    chatStream_noClients env p pre fin post hcl hbc hpre hfin
  refine ⟨_, errs, hrun, rfl, hlen, herrs, hnc, htr, rfl, ?_⟩
  show (List.map Frame.raw (pre ++ [fin]) ++ errs ++ [Frame.done]).getLast? = some Frame.done
  rw [List.append_assoc, List.getLast?_append]
  · simp [List.getLast?_concat]

/-- C7 (amended): for a streaming request with `isYolo = true` and an
empty `mcpServerNames` list whose model turn requests a tool call, the
code does NOT emit an `error` frame citing the missing server
configuration (that code path, lines 651-656, is unreachable): it emits
one `tool_error` frame per tracked call — produced by the `TypeError`
of reading `mcpClients[0]` — then `[DONE]`, and no tool invocation is
attempted. -/
theorem c7_yolo_no_servers (env : StreamEnv) (p : StreamParams)
    (pre : List Chunk) (fin : Chunk) (post : List Chunk)
    (hyolo : p.isYolo = true)
    (hnames : p.mcpServerNames = [])
    (hbc : env.backendChunks = .ok (pre ++ fin :: post))
    (hpre : ∀ c ∈ pre, c.finish_reason ≠ some "tool_calls")
    (hfin : fin.finish_reason = some "tool_calls") :
    ∃ s errs, chatStream env p = .returned s ∧
      s.frames = ((pre ++ [fin]).map Frame.raw) ++ errs ++ [Frame.done] ∧
      errs.length = ((pre ++ [fin]).foldl
        (fun acc c => c.tool_calls.foldl ingestFragment acc) []).length ∧
      (∀ f ∈ errs, Frame.isToolError f = true) ∧
      countF Frame.isErrorFrame s.frames = 0 ∧
      countF Frame.isToolResult s.frames = 0 ∧
      s.invoked = [] ∧
      s.frames.getLast? = some Frame.done := by
  have hcl : mcpClientsOf p = [] := by simp [mcpClientsOf, hnames]
  obtain ⟨errs, hrun, hlen, herrs, hnc, htr, he⟩ :=
    chatStream_noClients env p pre fin post hcl hbc hpre hfin
  refine ⟨_, errs, hrun, rfl, hlen, herrs, he, htr, rfl, ?_⟩
  show (List.map Frame.raw (pre ++ [fin]) ++ errs ++ [Frame.done]).getLast? = some Frame.done
  rw [List.append_assoc, List.getLast?_append]
  · simp [List.getLast?_concat]

/-- A turn delivering one tool-call fragment with full JSON arguments,
then the `tool_calls` finish signal. -/
def cFrag : Chunk :=
  { tool_calls := [{ id := some "call_1", fname := some "get_meta",
                     fargs := some "\x7b\"path\":\"/b/x\"\x7d" }] }

def cFin : Chunk := { finish_reason := some "tool_calls" }

def envToolTurn : StreamEnv :=
  { toolList := .ok [], backendChunks := .ok [cFrag, cFin],
    invoke := fun _ _ _ => .ok (Json.str "OK") }

def pNoYolo : StreamParams :=
  { isYolo := false, mcpServerNames := ["ebook-mcp"],
    messages := [{ role := .user, content := "read /a/b" }] }

def pYoloNoServers : StreamParams :=
  { isYolo := true, mcpServerNames := [],
    messages := [{ role := .user, content := "read /a/b" }] }

/-- A fully-accumulated call whose arguments are a complete JSON object
with a path. -/
def stPathArgs : ToolCallState :=
  { id := "call_1", name := "get_meta", arguments := "\x7b\"path\":\"/b/x\"\x7d",
    index := 0, argumentsComplete := true }

/-- A fully-accumulated call whose arguments are valid JSON without a
`path` member. -/
def stNoPathArgs : ToolCallState :=
  { id := "call_2", name := "get_meta", arguments := "\x7b\"a\":1\x7d",
    index := 0, argumentsComplete := true }

/-- A call whose argument buffer stayed empty. -/
def stEmptyArgs : ToolCallState :=
  { id := "call_3", name := "get_meta", arguments := "", index := 0,
    argumentsComplete := false }

def sEmpty : SState := { messages := [] }

/-- C6 witness: the concrete `isYolo = false` tool-call turn. -/
theorem c6_witness :
    ∃ s errs, chatStream envToolTurn pNoYolo = .returned s ∧
      s.frames = (([cFrag] ++ [cFin]).map Frame.raw) ++ errs ++ [Frame.done] ∧
      errs.length = (([cFrag] ++ [cFin]).foldl
        (fun acc c => c.tool_calls.foldl ingestFragment acc) []).length ∧
      (∀ f ∈ errs, Frame.isToolError f = true) ∧
      countF Frame.isNeedConfirm s.frames = 0 ∧
      countF Frame.isToolResult s.frames = 0 ∧
      s.invoked = [] ∧
      s.frames.getLast? = some Frame.done :=
  c6_confirmation_missing envToolTurn pNoYolo [cFrag] cFin [] rfl rfl
    (by decide) rfl

/-- C7 witness: the concrete `isYolo = true`, no-servers tool-call turn. -/
theorem c7_witness :
    ∃ s errs, chatStream envToolTurn pYoloNoServers = .returned s ∧
      s.frames = (([cFrag] ++ [cFin]).map Frame.raw) ++ errs ++ [Frame.done] ∧
      errs.length = (([cFrag] ++ [cFin]).foldl
        (fun acc c => c.tool_calls.foldl ingestFragment acc) []).length ∧
      (∀ f ∈ errs, Frame.isToolError f = true) ∧
      countF Frame.isErrorFrame s.frames = 0 ∧
      countF Frame.isToolResult s.frames = 0 ∧
      s.invoked = [] ∧
      s.frames.getLast? = some Frame.done :=
  c7_yolo_no_servers envToolTurn pYoloNoServers [cFrag] cFin [] rfl rfl rfl
    (by decide) rfl

/-- C6 counterexample: the claim says this run contains one
`need_confirm` frame listing the calls.  The concrete `isYolo = false`
tool-call turn contains zero `need_confirm` frames (and instead one
`tool_error` frame) before its single `[DONE]`. -/
theorem c6_counterexample :
    countF Frame.isNeedConfirm (chatStream envToolTurn pNoYolo).state.frames = 0 ∧
    ¬ countF Frame.isNeedConfirm (chatStream envToolTurn pNoYolo).state.frames = 1 ∧
    countF Frame.isToolError (chatStream envToolTurn pNoYolo).state.frames = 1 ∧
    countF Frame.isDone (chatStream envToolTurn pNoYolo).state.frames = 1 := by
  refine ⟨rfl, ?_, rfl, rfl⟩
  intro hcontra
  simp only [show countF Frame.isNeedConfirm
    (chatStream envToolTurn pNoYolo).state.frames = 0 from rfl] at hcontra
  exact absurd hcontra (by decide)

/-- C7 counterexample: the claim says this run contains exactly one
`error` frame citing the missing server configuration.  The concrete
`isYolo = true`, empty-`mcpServerNames` tool-call turn contains zero
`error` frames — the call dies with a `tool_error` frame instead. -/
theorem c7_counterexample :
    countF Frame.isErrorFrame (chatStream envToolTurn pYoloNoServers).state.frames = 0 ∧
    ¬ countF Frame.isErrorFrame (chatStream envToolTurn pYoloNoServers).state.frames = 1 ∧
    countF Frame.isToolError (chatStream envToolTurn pYoloNoServers).state.frames = 1 ∧
    (chatStream envToolTurn pYoloNoServers).state.invoked = [] := by
  refine ⟨rfl, ?_, rfl, rfl⟩
  intro hcontra
  simp only [show countF Frame.isErrorFrame
    (chatStream envToolTurn pYoloNoServers).state.frames = 0 from rfl] at hcontra
  exact absurd hcontra (by decide)

/-! ## Finalization compute lemmas -/

theorem send_open (f : Frame) (s : SState) (hse : s.streamEnded = false) :
    send f s = { s with frames := s.frames ++ [f] } := by
  unfold send writeF
  rw [hse]
  simp

/-- If argument resolution yields `v` with a truthy `path` and a client
exists, the call reaches the tool layer with exactly `v`. -/
theorem processState_invokes (env : StreamEnv) (c : String) (cl : List String)
    (st : ToolCallState) (s : SState) (v : Json)
    (hres : (if ¬ st.argumentsComplete ∨ trimString st.arguments = "" then
               (Except.ok (pathFallback s.messages) : Except String (Option Json))
             else (cleanAndParseJSON st.arguments).map some) = .ok (some v))
    (hpath : fieldTruthy v "path" = true) :
    (processState env (c :: cl) st s).invoked = s.invoked ++ [(st.name, v)] := by
  unfold processState
  rw [hres]
  simp only [hpath, not_true, Bool.true_eq_false, reduceIte, ite_false, if_neg]
  cases hi : env.invoke c st.name v with
  | ok r =>
    repeat' split
    all_goals exact send_invoked _ _
  | error e =>
    exact send_invoked _ _

/-- Resolution succeeded but the invocation failed: one `tool_error`
frame for that call, nothing else changes (besides the invocation
trace). -/
theorem processState_invoke_error (env : StreamEnv) (c : String) (cl : List String)
    (st : ToolCallState) (s : SState) (v : Json) (e : String)
    (hres : (if ¬ st.argumentsComplete ∨ trimString st.arguments = "" then
               (Except.ok (pathFallback s.messages) : Except String (Option Json))
             else (cleanAndParseJSON st.arguments).map some) = .ok (some v))
    (hpath : fieldTruthy v "path" = true)
    (hi : env.invoke c st.name v = .error e) :
    processState env (c :: cl) st s =
      send (Frame.toolError e) { s with invoked := s.invoked ++ [(st.name, v)] } := by
  unfold processState
  rw [hres]
  simp only [hpath, not_true, Bool.true_eq_false, reduceIte, ite_false, if_neg]
  rw [hi]

/-- Resolution succeeded and the invocation succeeded: one `tool_result`
frame and one recorded tool result. -/
theorem processState_invoke_ok (env : StreamEnv) (c : String) (cl : List String)
    (st : ToolCallState) (s : SState) (v : Json) (r : Json)
    (hres : (if ¬ st.argumentsComplete ∨ trimString st.arguments = "" then
               (Except.ok (pathFallback s.messages) : Except String (Option Json))
             else (cleanAndParseJSON st.arguments).map some) = .ok (some v))
    (hpath : fieldTruthy v "path" = true)
    (hi : env.invoke c st.name v = .ok r)
    (hse : s.streamEnded = false) :
    processState env (c :: cl) st s =
      { s with frames := s.frames ++ [Frame.toolResult st.name r],
               toolResults := s.toolResults ++ [⟨st.name, r, st.id⟩],
               invoked := s.invoked ++ [(st.name, v)] } := by
  unfold processState
  rw [hres]
  simp only [hpath, not_true, Bool.true_eq_false, reduceIte, ite_false, if_neg]
  have hs2 : ({ s with invoked := s.invoked ++ [(st.name, v)] } : SState).streamEnded = false :=
    hse
  rw [hi]
  split
  · rename_i result h
    injection h with h
    subst h
    split
    · rename_i h2
      rw [send_streamEnded] at h2
      exact absurd h2 (by simp [hse])
    · rw [send_open _ _ hs2]
  · rename_i e h
    exact absurd h (by simp)

/-- C10: invariant of the streaming finalization — every invocation that
reaches the tool layer carries arguments whose `path` member is truthy,
and a call whose complete, parseable arguments lack a truthy `path` is
rejected with a generic `tool_error` and never invoked. -/
theorem c10_path_invariant :
    (∀ (env : StreamEnv) (clients : List String) (st : ToolCallState) (s : SState)
       (pr : String × Json), pr ∈ (processState env clients st s).invoked →
       pr ∈ s.invoked ∨ fieldTruthy pr.2 "path" = true) ∧
    (∀ (env : StreamEnv) (clients : List String) (st : ToolCallState) (s : SState) (v : Json),
       st.argumentsComplete = true → trimString st.arguments ≠ "" →
       cleanAndParseJSON st.arguments = .ok v → fieldTruthy v "path" = false →
       processState env clients st s =
         send (Frame.toolError "No valid path found in arguments or user message") s ∧
         (processState env clients st s).invoked = s.invoked) := by
  constructor
  · intro env clients st s pr hpr
    unfold processState at hpr
    split at hpr
    · rw [send_invoked] at hpr; exact Or.inl hpr
    · rw [send_invoked] at hpr; exact Or.inl hpr
    · rename_i v heq
      split at hpr
      · rw [send_invoked] at hpr; exact Or.inl hpr
      · rename_i hft
        split at hpr
        · rw [send_invoked] at hpr; exact Or.inl hpr
        · rename_i c cl heq2
          have hinv : ∀ (x : SState), x.invoked = s.invoked ++ [(st.name, v)] →
              pr ∈ x.invoked → pr ∈ s.invoked ∨ fieldTruthy pr.2 "path" = true := by
            intro x hx hmem
            rw [hx] at hmem
            rcases List.mem_append.mp hmem with hmem | hmem
            · exact Or.inl hmem
            · rcases List.mem_singleton.mp hmem with rfl
              right
              simpa using hft
          split at hpr
          · rename_i r heq3
            by_cases hse : (send (Frame.toolResult st.name r)
                { s with invoked := s.invoked ++ [(st.name, v)] }).streamEnded = true
            · rw [if_pos hse] at hpr
              exact hinv _ (send_invoked _ _) hpr
            · rw [if_neg hse] at hpr
              exact hinv _ (send_invoked _ _) hpr
          · exact hinv _ (send_invoked _ _) hpr
  · intro env clients st s v hcomp htrim hcp hft
    have hcond : ¬ (¬ st.argumentsComplete = true ∨ trimString st.arguments = "") := by
      simp [hcomp, htrim]
    constructor
    · unfold processState
      rw [if_neg hcond, hcp]
      rw [show ((Except.ok v).map some : Except String (Option Json)) = .ok (some v) from rfl]
      simp only [hft, Bool.false_eq_true, not_false_eq_true, reduceIte]
    · unfold processState
      rw [if_neg hcond, hcp]
      rw [show ((Except.ok v).map some : Except String (Option Json)) = .ok (some v) from rfl]
      simp only [hft, Bool.false_eq_true, not_false_eq_true, reduceIte]
      exact send_invoked _ _

/-- C10 witness: a call resolving to `{"path":"/b/x"}` reaches the tool
layer with a truthy path, while a call resolving to the valid JSON
object `{"a":1}` (no `path`) is rejected with a `tool_error` and never
invoked. -/
theorem c10_witness :
    (("get_meta", Json.obj [("path", Json.str "/b/x")]) ∈ (sEmpty.invoked : List (String × Json)) ∨
      fieldTruthy (Json.obj [("path", Json.str "/b/x")]) "path" = true) ∧
    (processState envToolTurn ["s"] stNoPathArgs sEmpty =
        send (Frame.toolError "No valid path found in arguments or user message") sEmpty ∧
      (processState envToolTurn ["s"] stNoPathArgs sEmpty).invoked = sEmpty.invoked) :=
  ⟨c10_path_invariant.1 envToolTurn ["s"] stPathArgs sEmpty
      ("get_meta", Json.obj [("path", Json.str "/b/x")]) (List.mem_singleton.mpr rfl),
   c10_path_invariant.2 envToolTurn ["s"] stNoPathArgs sEmpty (Json.obj [("a", Json.num 1)])
      rfl (by decide) rfl rfl⟩

/-! ## C9: the empty/unparsable-buffer fallback -/

/-- A second user message carrying a path; the streaming params of the
C9 counterexample put it after a pathless first user message. -/
def pC9 : StreamParams :=
  { isYolo := true, mcpServerNames := ["ebook-mcp"],
    messages := [{ role := .user, content := "hello there" },
                 { role := .user, content := "see /tmp/x" }] }

/-- Backend turn for C9: one fragment that never delivers any
`arguments` bytes, then the `tool_calls` finisher. -/
def envC9 : StreamEnv :=
  { toolList := .ok [],
    backendChunks := .ok
      [ { tool_calls := [{ id := some "call_9", index := 0,
                           fname := some "get_meta", fargs := none }] },
        { tool_calls := [], finish_reason := some "tool_calls" } ],
    invoke := fun _ _ _ => .ok (Json.str "OK") }

/-- C9 (amended): when the buffer is empty or incomplete, the fallback
scans the FIRST user message of the conversation; a non-empty extracted
path is wrapped as `{"path": p}` and invoked, and when no path is
recovered the call yields a generic `tool_error` (not naming the call)
and is never invoked. -/
theorem c9_fallback_first_user :
    (∀ (env : StreamEnv) (c : String) (cl : List String) (st : ToolCallState)
       (s : SState) (m : Message) (p : String),
       (¬ st.argumentsComplete = true ∨ trimString st.arguments = "") →
       s.messages.find? (fun m0 => m0.role = Role.user) = some m →
       m.content ≠ "" →
       extractPathFromMessage m.content = some p →
       p ≠ "" →
       (processState env (c :: cl) st s).invoked
         = s.invoked ++ [(st.name, Json.obj [("path", Json.str p)])]) ∧
    (∀ (env : StreamEnv) (clients : List String) (st : ToolCallState) (s : SState),
       (¬ st.argumentsComplete = true ∨ trimString st.arguments = "") →
       pathFallback s.messages = none →
       processState env clients st s =
         send (Frame.toolError "No valid path found in arguments or user message") s ∧
       (processState env clients st s).invoked = s.invoked) := by
  constructor
  · intro env c cl st s m p hcond hfind hm hext hp
    have hpf : pathFallback s.messages = some (Json.obj [("path", Json.str p)]) := by
      unfold pathFallback
      rw [hfind]
      simp only [hm, hext, hp, ne_eq, not_false_eq_true, reduceIte, ite_true]
    have hres : (if ¬ st.argumentsComplete ∨ trimString st.arguments = "" then
                   (Except.ok (pathFallback s.messages) : Except String (Option Json))
                 else (cleanAndParseJSON st.arguments).map some)
        = .ok (some (Json.obj [("path", Json.str p)])) := by
      rw [if_pos hcond, hpf]
    have hpath : fieldTruthy (Json.obj [("path", Json.str p)]) "path" = true := by
      simp [fieldTruthy, Json.getField, Json.truthy, hp]
    exact processState_invokes env c cl st s _ hres hpath
  · intro env clients st s hcond hpf
    have hstep : processState env clients st s =
        send (Frame.toolError "No valid path found in arguments or user message") s := by
      unfold processState
      rw [if_pos hcond, hpf]
    exact ⟨hstep, by rw [hstep, send_invoked]⟩

/-- C9 witness: with an empty buffer and the conversation
`[user "see /tmp/x"]`, the fallback invokes `{"path":"/tmp/x"}`; with
the pathless conversation `[user "hello there"]`, a generic `tool_error`
is written and nothing is invoked. -/
theorem c9_witness :
    (processState envC9 ["s"] stEmptyArgs
        { messages := [{ role := .user, content := "see /tmp/x" }] }).invoked
      = [] ++ [("get_meta", Json.obj [("path", Json.str "/tmp/x")])] ∧
    (processState envC9 ["s"] stEmptyArgs
        { messages := [{ role := .user, content := "hello there" }] } =
      send (Frame.toolError "No valid path found in arguments or user message")
        { messages := [{ role := .user, content := "hello there" }] } ∧
     (processState envC9 ["s"] stEmptyArgs
        { messages := [{ role := .user, content := "hello there" }] }).invoked
      = ({ messages := [{ role := .user, content := "hello there" }] } : SState).invoked) :=
  ⟨c9_fallback_first_user.1 envC9 "s" [] stEmptyArgs
      { messages := [{ role := .user, content := "see /tmp/x" }] }
      { role := .user, content := "see /tmp/x" } "/tmp/x"
      (Or.inl (by decide)) rfl (by decide) rfl (by decide),
   c9_fallback_first_user.2 envC9 ["s"] stEmptyArgs
      { messages := [{ role := .user, content := "hello there" }] }
      (Or.inl (by decide)) rfl⟩

/-- C9 counterexample: the fallback reads the FIRST user message, not
the most recent one, and the emitted `tool_error` does not name the
call.  With conversation `[user "hello there", user "see /tmp/x"]` and
an empty argument buffer, the most recent user message does contain the
extractable path `/tmp/x`, yet the whole run invokes nothing and its
only `tool_error` frame is the generic message, which does not mention
the call id `call_9` or the tool name `get_meta`. -/
theorem c9_counterexample :
    extractPathFromMessage "see /tmp/x" = some "/tmp/x" ∧
    (chatStream envC9 pC9).state.invoked = [] ∧
    (chatStream envC9 pC9).state.frames.filter Frame.isToolError
      = [Frame.toolError "No valid path found in arguments or user message"] := by
  exact ⟨rfl, rfl, rfl⟩

/-! ## C1: fragment accumulation and finalize -/

/-- Concatenation of the `arguments` fragments of a delta sequence. -/
def argsConcat : List ToolCallFragment → String
  | [] => ""
  | f :: r => f.fargs.getD "" ++ argsConcat r

/-- Ingesting a fragment of an already-tracked call appends its
`arguments` piece and recomputes `argumentsComplete`. -/
theorem ingest_existing (st : ToolCallState) (f : ToolCallFragment)
    (hid : f.id = some st.id)
    (hc : st.argumentsComplete = isCompleteJSON st.arguments) :
    ∃ st1, ingestFragment [st] f = [st1] ∧ st1.id = st.id ∧
      st1.arguments = st.arguments ++ f.fargs.getD "" ∧
      st1.argumentsComplete = isCompleteJSON st1.arguments := by
  rcases f with ⟨fid, fidx, fname, fargs⟩
  have hid' : fid = some st.id := hid
  subst hid'
  rcases fname with _ | n <;> rcases fargs with _ | a
  · exact ⟨st, by simp [ingestFragment], rfl, by simp, hc⟩
  · exact ⟨ToolCallState.mk st.id st.name (st.arguments ++ a) st.index
             (isCompleteJSON (st.arguments ++ a)),
           by simp [ingestFragment], rfl, rfl, rfl⟩
  · exact ⟨({ st with name := n }), by simp [ingestFragment], rfl, by simp, hc⟩
  · exact ⟨ToolCallState.mk st.id n (st.arguments ++ a) st.index
             (isCompleteJSON (st.arguments ++ a)),
           by simp [ingestFragment], rfl, rfl, rfl⟩

/-- Ingesting the first fragment of a call creates its tracking state
with the fragment's `arguments` piece as initial buffer. -/
theorem ingest_create (f : ToolCallFragment) (i : String) (hid : f.id = some i) :
    ∃ st1, ingestFragment [] f = [st1] ∧ st1.id = i ∧
      st1.arguments = f.fargs.getD "" ∧
      st1.argumentsComplete = isCompleteJSON st1.arguments := by
  rcases f with ⟨fid, fidx, fname, fargs⟩
  have hid' : fid = some i := hid
  subst hid'
  rcases fname with _ | n <;> rcases fargs with _ | a
  · exact ⟨ToolCallState.mk i "" "" fidx false,
           by simp [ingestFragment], rfl, rfl, rfl⟩
  · exact ⟨ToolCallState.mk i "" ("" ++ a) fidx (isCompleteJSON ("" ++ a)),
           by simp [ingestFragment], rfl, by simp, rfl⟩
  · exact ⟨ToolCallState.mk i n "" fidx false,
           by simp [ingestFragment], rfl, rfl, rfl⟩
  · exact ⟨ToolCallState.mk i n ("" ++ a) fidx (isCompleteJSON ("" ++ a)),
           by simp [ingestFragment], rfl, by simp, rfl⟩

/-- Folding same-id fragments over a single tracked state accumulates
the concatenation of their `arguments` pieces, and keeps
`argumentsComplete` equal to the completeness check of the buffer. -/
theorem ingest_accumulate :
    ∀ (frags : List ToolCallFragment) (st : ToolCallState),
      (∀ f ∈ frags, f.id = some st.id) →
      st.argumentsComplete = isCompleteJSON st.arguments →
      ∃ st1, frags.foldl ingestFragment [st] = [st1] ∧ st1.id = st.id ∧
        st1.arguments = st.arguments ++ argsConcat frags ∧
        st1.argumentsComplete = isCompleteJSON st1.arguments := by
  intro frags
  induction frags with
  | nil =>
    intro st _ hc
    exact ⟨st, rfl, rfl, by simp [argsConcat], hc⟩
  | cons f r ih =>
    intro st hids hc
    obtain ⟨st1, heq1, hid1, hargs1, hc1⟩ :=
      ingest_existing st f (hids f (List.mem_cons_self f r)) hc
    obtain ⟨st2, heq2, hid2, hargs2, hc2⟩ :=
      ih st1 (fun f' hf' => by rw [hid1]; exact hids f' (List.mem_cons_of_mem f hf')) hc1
    refine ⟨st2, ?_, by rw [hid2, hid1], ?_, hc2⟩
    · rw [List.foldl_cons, heq1, heq2]
    · rw [hargs2, hargs1, String.append_assoc]
      rfl

/-- Folding a same-id fragment sequence from the empty tracking map
yields one state holding the concatenation of the fragments. -/
theorem ingest_accumulate_nil (frags : List ToolCallFragment) (i : String)
    (st : ToolCallState)
    (hfold : frags.foldl ingestFragment [] = [st])
    (hids : ∀ f ∈ frags, f.id = some i) :
    st.arguments = argsConcat frags ∧
    st.argumentsComplete = isCompleteJSON st.arguments ∧ st.id = i := by
  cases frags with
  | nil => exact absurd hfold (by simp)
  | cons f r =>
    obtain ⟨st1, heq1, hid1, hargs1, hc1⟩ :=
      ingest_create f i (hids f (List.mem_cons_self f r))
    obtain ⟨st2, heq2, hid2, hargs2, hc2⟩ :=
      ingest_accumulate r st1
        (fun f' hf' => by rw [hid1]; exact hids f' (List.mem_cons_of_mem f hf'))
        hc1
    rw [List.foldl_cons, heq1, heq2] at hfold
    injection hfold with hfold
    subst hfold
    refine ⟨?_, hc2, by rw [hid2, hid1]⟩
    rw [hargs2, hargs1]
    rfl

/-- C1 (amended): for every same-id fragment sequence whose
concatenated `arguments` pieces form a brace-delimited, trim-stable,
parseable JSON object carrying a truthy `path`, finalize resolves the
call's arguments to exactly the parse of that concatenation and passes
it to the tool layer. -/
theorem c1_finalize_concatenation (env : StreamEnv) (c : String) (cl : List String)
    (frags : List ToolCallFragment) (i : String) (st : ToolCallState) (s : SState)
    (kvs : List (String × Json))
    (hids : ∀ f ∈ frags, f.id = some i)
    (hfold : frags.foldl ingestFragment [] = [st])
    (hparse : jsonParse (argsConcat frags) = some (Json.obj kvs))
    (htrim : trimString (argsConcat frags) = argsConcat frags)
    (hopen : startsWithStr (argsConcat frags) "\x7b" = true)
    (hclose : endsWithStr (argsConcat frags) "\x7d" = true)
    (hpath : fieldTruthy (Json.obj kvs) "path" = true) :
    (processState env (c :: cl) st s).invoked
      = s.invoked ++ [(st.name, Json.obj kvs)] := by
  obtain ⟨hargs, hcompl, -⟩ := ingest_accumulate_nil frags i st hfold hids
  have hne : argsConcat frags ≠ "" := by
    intro h
    rw [h] at hopen
    exact absurd hopen (by decide)
  have hcj : isCompleteJSON (argsConcat frags) = true := by
    unfold isCompleteJSON
    simp only [htrim]
    simp [hne, hopen, hclose, hparse]
  have hcompl' : st.argumentsComplete = true := by
    rw [hcompl, hargs, hcj]
  have hcp : cleanAndParseJSON (argsConcat frags) = .ok (Json.obj kvs) := by
    unfold cleanAndParseJSON
    rw [if_neg (by rw [htrim]; exact hne), hparse]
    rfl
  have hcond : ¬ (¬ st.argumentsComplete = true ∨ trimString st.arguments = "") := by
    simp [hcompl', hargs, htrim, hne]
  have hres : (if ¬ st.argumentsComplete ∨ trimString st.arguments = "" then
                 (Except.ok (pathFallback s.messages) : Except String (Option Json))
               else (cleanAndParseJSON st.arguments).map some)
      = .ok (some (Json.obj kvs)) := by
    rw [if_neg hcond, hargs, hcp]
    rfl
  exact processState_invokes env c cl st s _ hres hpath

/-- First half of a split tool-call delta for the C1 witness. -/
def fC1a : ToolCallFragment :=
  { id := some "c1", index := 0, fname := some "get_meta", fargs := some "\x7b\"pa" }

/-- Second half of the split delta. -/
def fC1b : ToolCallFragment :=
  { id := some "c1", index := 1, fname := none, fargs := some "th\":\"/a/b\"\x7d" }

/-- The state the two C1 fragments accumulate to. -/
def stC1w : ToolCallState :=
  { id := "c1", name := "get_meta", arguments := "\x7b\"path\":\"/a/b\"\x7d",
    index := 0, argumentsComplete := true }

/-- C1 witness: the split delta `\x7b"pa` + `th":"/a/b"\x7d` accumulates to
the buffer `\x7b"path":"/a/b"\x7d`, whose parse is passed verbatim to the
tool layer. -/
theorem c1_witness :
    [fC1a, fC1b].foldl ingestFragment [] = [stC1w] ∧
    jsonParse (argsConcat [fC1a, fC1b]) = some (Json.obj [("path", Json.str "/a/b")]) ∧
    (processState envToolTurn ["s"] stC1w sEmpty).invoked
      = sEmpty.invoked ++ [(stC1w.name, Json.obj [("path", Json.str "/a/b")])] :=
  ⟨rfl, rfl,
   c1_finalize_concatenation envToolTurn "s" [] [fC1a, fC1b] "c1" stC1w sEmpty
     [("path", Json.str "/a/b")] (by decide) rfl rfl rfl rfl rfl (by decide)⟩

/-- Backend turn for the C1 counterexample: the concatenated arguments
are the valid JSON object `\x7b"a":1\x7d`, which has no `path` member. -/
def envC1x : StreamEnv :=
  { toolList := .ok [],
    backendChunks := .ok
      [ { tool_calls := [{ id := some "c1", index := 0,
                           fname := some "get_meta", fargs := some "\x7b\"a\":1\x7d" }] },
        { tool_calls := [], finish_reason := some "tool_calls" } ],
    invoke := fun _ _ _ => .ok (Json.str "OK") }

def pC1x : StreamParams :=
  { isYolo := true, mcpServerNames := ["ebook-mcp"],
    messages := [{ role := .user, content := "hello there" }] }

/-- C1 counterexample: the concatenation `\x7b"a":1\x7d` is valid JSON, yet
finalize does not yield its parse as the call's arguments — the missing
`path` member makes it emit a `tool_error` and invoke nothing, so the
original claim's "whenever that concatenation is valid JSON" is too
broad. -/
theorem c1_counterexample :
    jsonParse "\x7b\"a\":1\x7d" = some (Json.obj [("a", Json.num 1)]) ∧
    (chatStream envC1x pC1x).state.invoked = [] ∧
    (chatStream envC1x pC1x).state.frames.filter Frame.isToolError
      = [Frame.toolError "No valid path found in arguments or user message"] :=
  ⟨rfl, rfl, rfl⟩

/-! ## C8: independence of sibling invocations -/

/-- `endStream` on an open stream with accumulated tool results appends
the assistant/tool messages and the terminal frame. -/
theorem endStream_withResults (s : SState) (hse : s.streamEnded = false)
    (hne : s.toolResults.isEmpty = false) :
    endStream s = { s with
      messages := s.messages ++ mkAssistantResultsMsg s.toolResults :: s.toolResults.map mkToolMsg,
      frames := s.frames ++ [Frame.done], streamEnded := true } := by
  unfold endStream
  rw [hse]
  simp only [Bool.false_eq_true, reduceIte, hne, not_false_eq_true, ite_true]

/-- C8 (amended): the two tool loops treat a failed invocation
differently.  In `chatStream`, a failure yields one `tool_error` frame
for that call only and the sibling call still runs; but only SUCCESSFUL
results are appended to the conversation (the failed one leaves no tool
message).  In `chat`, the first failed invocation throws, aborting the
sibling invocations of the same turn. -/
theorem c8_sibling_independence :
    (∀ (env : StreamEnv) (c : String) (cl : List String)
       (stf sts : ToolCallState) (s : SState) (vf vs : Json) (e : String) (r : Json),
       (if ¬ stf.argumentsComplete ∨ trimString stf.arguments = "" then
          (Except.ok (pathFallback s.messages) : Except String (Option Json))
        else (cleanAndParseJSON stf.arguments).map some) = .ok (some vf) →
       fieldTruthy vf "path" = true →
       env.invoke c stf.name vf = .error e →
       sts.argumentsComplete = true →
       ¬ trimString sts.arguments = "" →
       cleanAndParseJSON sts.arguments = .ok vs →
       fieldTruthy vs "path" = true →
       env.invoke c sts.name vs = .ok r →
       s.streamEnded = false →
       s.toolResults = [] →
       endStream (processState env (c :: cl) sts (processState env (c :: cl) stf s)) =
         { s with
             frames := s.frames ++ [Frame.toolError e, Frame.toolResult sts.name r, Frame.done],
             toolResults := [⟨sts.name, r, sts.id⟩],
             messages := s.messages ++
               [mkAssistantResultsMsg [⟨sts.name, r, sts.id⟩], mkToolMsg ⟨sts.name, r, sts.id⟩],
             streamEnded := true,
             invoked := s.invoked ++ [(stf.name, vf), (sts.name, vs)] }) ∧
    (∀ (env : ChatEnv) (tools : List String) (c1 : NSToolCall) (rest : List NSToolCall)
       (inv : List (Nat × String × String)) (f : NSFun) (i : Nat) (e : String),
       c1.fn = some f →
       tools.findIdx? (fun t => t = f.name) = some i →
       i < env.clients.length →
       env.invoke i f.name f.arguments = .error e →
       processNSCalls env tools (c1 :: rest) inv
         = (.error ("Tool execution failed: " ++ e), inv ++ [(i, f.name, f.arguments)])) := by
  constructor
  · intro env c cl stf sts s vf vs e r hresf hpathf hif hcs hts hcps hpaths his hse htr
    have h1 : processState env (c :: cl) stf s =
        { s with frames := s.frames ++ [Frame.toolError e],
                 invoked := s.invoked ++ [(stf.name, vf)] } := by
      rw [processState_invoke_error env c cl stf s vf e hresf hpathf hif]
      exact send_open _ _ hse
    have hres2 : ∀ (t : SState),
        (if ¬ sts.argumentsComplete ∨ trimString sts.arguments = "" then
           (Except.ok (pathFallback t.messages) : Except String (Option Json))
         else (cleanAndParseJSON sts.arguments).map some) = .ok (some vs) := by
      intro t
      rw [if_neg (by simp [hcs, hts]), hcps]
      rfl
    rw [h1,
        processState_invoke_ok env c cl sts _ vs r (hres2 _) hpaths his (by exact hse)]
    rw [endStream_withResults _ (by exact hse) (by simp [htr])]
    simp [htr, List.append_assoc]
  · intro env tools c1 rest inv f i e hfn hfind hlen hinv
    unfold processNSCalls
    simp only [hfn, hfind]
    rw [if_neg (Nat.not_le.mpr hlen)]
    simp only [hinv]

/-- The chat environment of the C8 witness and counterexample: one turn
requesting two tool calls, both tools resolvable, every invocation
failing. -/
def c8env : ChatEnv :=
  { gen := fun _ _ =>
      { choice := some
          { finish_reason := some "tool_calls",
            content := "",
            tool_calls := some [⟨"id1", some ⟨"t1", "\x7b\x7d"⟩⟩,
                                ⟨"id2", some ⟨"t2", "\x7b\x7d"⟩⟩] } },
    toolsFor := fun _ => .ok ["t1", "t2"],
    clients := ["c1", "c2"],
    invoke := fun _ _ _ => .error "boom" }

/-- Streaming environment for the C8 witness: invoking the tool named
`bad` fails, any other invocation succeeds. -/
def env8 : StreamEnv :=
  { toolList := .ok [], backendChunks := .ok [],
    invoke := fun _ n _ => if n = "bad" then .error "boom" else .ok (Json.str "OK") }

/-- The failing call of the C8 witness. -/
def stF8 : ToolCallState :=
  { id := "f1", name := "bad", arguments := "\x7b\"path\":\"/a\"\x7d",
    index := 0, argumentsComplete := true }

/-- The succeeding sibling call of the C8 witness. -/
def stS8 : ToolCallState :=
  { id := "s1", name := "good", arguments := "\x7b\"path\":\"/b\"\x7d",
    index := 1, argumentsComplete := true }

/-- C8 witness: concrete sibling pair in both loops — streaming run
with the first call failing and the second succeeding, and the
non-streaming processing aborting at the first failure. -/
theorem c8_witness :
    endStream (processState env8 ["cl"] stS8 (processState env8 ["cl"] stF8 sEmpty)) =
      { sEmpty with
          frames := sEmpty.frames ++
            [Frame.toolError "boom", Frame.toolResult stS8.name (Json.str "OK"), Frame.done],
          toolResults := [⟨stS8.name, Json.str "OK", stS8.id⟩],
          messages := sEmpty.messages ++
            [mkAssistantResultsMsg [⟨stS8.name, Json.str "OK", stS8.id⟩],
             mkToolMsg ⟨stS8.name, Json.str "OK", stS8.id⟩],
          streamEnded := true,
          invoked := sEmpty.invoked ++
            [(stF8.name, Json.obj [("path", Json.str "/a")]),
             (stS8.name, Json.obj [("path", Json.str "/b")])] } ∧
    processNSCalls c8env ["t1", "t2"]
        [⟨"id1", some ⟨"t1", "\x7b\x7d"⟩⟩, ⟨"id2", some ⟨"t2", "\x7b\x7d"⟩⟩] []
      = (.error ("Tool execution failed: " ++ "boom"), [] ++ [(0, "t1", "\x7b\x7d")]) :=
  ⟨c8_sibling_independence.1 env8 "cl" [] stF8 stS8 sEmpty
      (Json.obj [("path", Json.str "/a")]) (Json.obj [("path", Json.str "/b")])
      "boom" (Json.str "OK")
      rfl (by decide) rfl rfl (by decide) rfl (by decide) rfl rfl rfl,
   c8_sibling_independence.2 c8env ["t1", "t2"] ⟨"id1", some ⟨"t1", "\x7b\x7d"⟩⟩
      [⟨"id2", some ⟨"t2", "\x7b\x7d"⟩⟩] [] ⟨"t1", "\x7b\x7d"⟩ 0 "boom"
      rfl rfl (by decide) rfl⟩

/-- C8 counterexample: in `chat`, a failing invocation ABORTS the
sibling invocations of the same turn and surfaces as a thrown failure —
the whole call returns the error, only the first invocation was
attempted, and no tool message is appended.  This refutes "a failure in
one invocation ... does not abort sibling invocations" and "failed
results are appended ... not a thrown failure" for the non-streaming
loop. -/
theorem c8_counterexample :
    (chat c8env true [{ role := .user, content := "go" }]).result
      = .error ("Tool execution failed: " ++ "boom") ∧
    (chat c8env true [{ role := .user, content := "go" }]).invocations
      = [(0, "t1", "\x7b\x7d")] :=
  ⟨rfl, rfl⟩

end LMP
